import Mathlib

/-!
Verification development for the build-file parser in
src/lib/BuildSystem/BuildFile.cpp.  The parser consumes a generic
YAML-like tree and populates a registry of tools, nodes, targets and
tasks, calling out to a delegate for entity creation, configuration
and error reporting.  The embedding below mirrors the C++ control
flow; delegate callbacks are modelled as pure decision functions, and
every delegate call is recorded in an event trace so that temporal
claims can be stated.
-/

namespace BuildFileModel

/-- Generic tree node kinds handed to the parser by the YAML layer
(Null, Scalar, Mapping, Sequence, Alias). -/
inductive YNode where
  | null : YNode
  | scalar (text : String) : YNode
  | mapping (entries : List (YNode × YNode)) : YNode
  | sequence (items : List YNode) : YNode
  | aliasNode : YNode

/-- Delegate decision functions: whether lookupTool recognises a tool
name, whether configureClient accepts, and whether each entity kind
accepts a configureAttribute call. -/
structure Delegate where
  lookupToolOk : String → Bool
  clientOk : String → Nat → List (String × String) → Bool
  toolAttrOk : String → String → String → Bool
  nodeAttrOk : String → String → String → Bool
  taskAttrOk : String → String → String → Bool

/-- Tool entity: name plus a creation serial number modelling instance
identity. -/
structure ToolEnt where
  name : String
  uid : Nat
deriving Repr, DecidableEq

/-- Node entity: name, the isImplicit flag fixed at creation, and a
creation serial number modelling instance identity. -/
structure NodeEnt where
  name : String
  isImplicit : Bool
  uid : Nat
deriving Repr, DecidableEq

/-- Target entity: a named ordered list of node-name strings. -/
structure Target where
  name : String
  nodeNames : List String
deriving Repr, DecidableEq

/-- Task entity: created by a tool, with inputs/outputs installed via
configureInputs/configureOutputs and accepted attribute pairs. -/
structure TaskEnt where
  name : String
  toolName : String
  inputs : List NodeEnt
  outputs : List NodeEnt
  attributes : List (String × String)
deriving Repr, DecidableEq

/-- Entity kinds whose configureAttribute protocol the parser calls. -/
inductive EntityKind where
  | tool : EntityKind
  | node : EntityKind
  | task : EntityKind
deriving Repr, DecidableEq

/-- Observable delegate interactions, in call order. -/
inductive Event where
  | error (file msg : String) : Event
  | lookupTool (name : String) (ok : Bool) : Event
  | lookupNode (name : String) (isImplicit : Bool) : Event
  | configureClient (name : String) (version : Nat)
      (properties : List (String × String)) (ok : Bool) : Event
  | configAttr (kind : EntityKind) (entity key value : String) (ok : Bool) : Event
  | createTask (toolName taskName : String) : Event
  | loadedTarget (name : String) : Event
  | loadedTask (name : String) : Event
deriving Repr, DecidableEq

/-- Parser state: the four registries, the delegate-interaction trace,
the file identifier used in diagnostics, and the next entity serial. -/
structure PState where
  mainFilename : String
  tools : List (String × ToolEnt)
  nodes : List (String × NodeEnt)
  targets : List (String × Target)
  tasks : List (String × TaskEnt)
  trace : List Event
  nextId : Nat
deriving Repr, DecidableEq

/-- Initial parser state for a given file identifier. -/
def initState (file : String) : PState :=
  { mainFilename := file, tools := [], nodes := [], targets := [],
    tasks := [], trace := [], nextId := 0 }

/-- Append an event to the trace. -/
def PState.emit (st : PState) (e : Event) : PState :=
  { st with trace := st.trace ++ [e] }

/-- Record a delegate.error call carrying the file identifier. -/
def PState.err (st : PState) (msg : String) : PState :=
  st.emit (Event.error st.mainFilename msg)

/-- Lookup in a name-keyed association list (std::map find). -/
def lookupKV {α : Type} (k : String) : List (String × α) → Option α
  | [] => none
  | (k', v) :: rest => if k' = k then some v else lookupKV k rest

/-- Insert-or-overwrite in a name-keyed association list
(std::map operator[] assignment). -/
def insertKV {α : Type} (k : String) (v : α) : List (String × α) → List (String × α)
  | [] => [(k, v)]
  | (k', v') :: rest =>
      if k' = k then (k, v) :: rest else (k', v') :: insertKV k v rest

/-- Check that a tree node is a scalar with the given text
(BuildFileImpl::nodeIsScalarString). -/
def nodeIsScalarString (n : YNode) (s : String) : Bool :=
  match n with
  | YNode.scalar t => t = s
  | _ => false

/-- Model of llvm StringRef getAsInteger with radix 10 into uint32:
succeeds exactly on a nonempty all-digit string whose value fits in 32
bits. -/
def parseUInt32 (s : String) : Option Nat :=
  if s.data = [] then none
  else if s.data.all (fun c => c.isDigit) then
    let v := s.data.foldl (fun a c => a * 10 + (c.toNat - 48)) 0
    if v < 2 ^ 32 then some v else none
  else none

/-- BuildFileImpl::getOrCreateTool: return the registered tool if the
name is present, otherwise ask the delegate; a delegate miss reports an
error and yields none. -/
def getOrCreateTool (d : Delegate) (st : PState) (name : String) :
    PState × Option ToolEnt :=
  match lookupKV name st.tools with
  | some t => (st, some t)
  | none =>
      if d.lookupToolOk name then
        let t : ToolEnt := { name := name, uid := st.nextId }
        ({ st with
            tools := insertKV name t st.tools,
            nextId := st.nextId + 1,
            trace := st.trace ++ [Event.lookupTool name true] }, some t)
      else
        ((st.emit (Event.lookupTool name false)).err
          "invalid tool type in tools map", none)

/-- BuildFileImpl::getOrCreateNode: return the registered node if the
name is present (the flag argument is then ignored), otherwise create
one via the delegate with the given isImplicit flag. -/
def getOrCreateNode (d : Delegate) (st : PState) (name : String)
    (isImplicit : Bool) : PState × NodeEnt :=
  match lookupKV name st.nodes with
  | some n => (st, n)
  | none =>
      let n : NodeEnt := { name := name, isImplicit := isImplicit, uid := st.nextId }
      ({ st with
          nodes := insertKV name n st.nodes,
          nextId := st.nextId + 1,
          trace := st.trace ++ [Event.lookupNode name isImplicit] }, n)

/-- Pure accumulator of the client-mapping loop over scalar key/value
pairs: threads name (last wins), version (last wins, each occurrence
must parse) and the non-reserved property list in order; none signals
a malformed version number. -/
def clientEval (name : String) (version : Nat)
    (props : List (String × String)) :
    List (String × String) → Option (String × Nat × List (String × String))
  | [] => some (name, version, props)
  | (key, value) :: rest =>
      if key = "name" then clientEval value version props rest
      else if key = "version" then
        match parseUInt32 value with
        | some ver => clientEval name ver props rest
        | none => none
      else clientEval name version (props ++ [(key, value)]) rest

/-- Loop body of BuildFileImpl::parseClientMapping: checks each entry
key and value are scalar, accumulates reserved keys and the property
list, failing fatally on a malformed version. -/
def clientLoop (st : PState) (name : String) (version : Nat)
    (props : List (String × String)) :
    List (YNode × YNode) → PState × Option (String × Nat × List (String × String))
  | [] => (st, some (name, version, props))
  | (k, v) :: rest =>
      match k with
      | YNode.scalar key =>
          match v with
          | YNode.scalar value =>
              if key = "name" then clientLoop st value version props rest
              else if key = "version" then
                match parseUInt32 value with
                | some ver => clientLoop st name ver props rest
                | none => (st.err "invalid version number in client map", none)
              else clientLoop st name version (props ++ [(key, value)]) rest
          | _ => (st.err "invalid value type in client map", none)
      | _ => (st.err "invalid key type in client map", none)

/-- BuildFileImpl::parseClientMapping: collect the keys, then pass the
result to the delegate configureClient; rejection is a fatal error. -/
def parseClientMapping (d : Delegate) (st : PState)
    (entries : List (YNode × YNode)) : PState × Bool :=
  match clientLoop st "" 0 [] entries with
  | (st', none) => (st', false)
  | (st', some (name, version, props)) =>
      let ok := d.clientOk name version props
      let st2 := st'.emit (Event.configureClient name version props ok)
      if ok then (st2, true)
      else (st2.err "unable to configure client", false)

/-- Tool attribute loop of BuildFileImpl::parseToolsMapping: each
key/value must be scalar; a configureAttribute rejection returns false
with no error report. -/
def toolAttrsLoop (d : Delegate) (st : PState) (toolName : String) :
    List (YNode × YNode) → PState × Bool
  | [] => (st, true)
  | (k, v) :: rest =>
      match k with
      | YNode.scalar key =>
          match v with
          | YNode.scalar value =>
              let ok := d.toolAttrOk toolName key value
              let st' := st.emit (Event.configAttr EntityKind.tool toolName key value ok)
              if ok then toolAttrsLoop d st' toolName rest
              else (st', false)
          | _ => (st.err "invalid value type in tools map", false)
      | _ => (st.err "invalid key type in tools map", false)

/-- BuildFileImpl::parseToolsMapping: each entry maps a scalar tool
name to a mapping of scalar attributes, applied to the
resolved-or-created tool. -/
def parseToolsMapping (d : Delegate) (st : PState) :
    List (YNode × YNode) → PState × Bool
  | [] => (st, true)
  | (k, v) :: rest =>
      match k with
      | YNode.scalar name =>
          match v with
          | YNode.mapping attrs =>
              match getOrCreateTool d st name with
              | (st', none) => (st', false)
              | (st', some tool) =>
                  match toolAttrsLoop d st' tool.name attrs with
                  | (st2, true) => parseToolsMapping d st2 rest
                  | (st2, false) => (st2, false)
          | _ => (st.err "invalid value type in tools map", false)
      | _ => (st.err "invalid key type in tools map", false)

/-- Node-name collection loop of BuildFileImpl::parseTargetsMapping:
every sequence item must be scalar. -/
def targetNamesLoop (st : PState) (acc : List String) :
    List YNode → PState × Option (List String)
  | [] => (st, some acc)
  | n :: rest =>
      match n with
      | YNode.scalar s => targetNamesLoop st (acc ++ [s]) rest
      | _ => (st.err "invalid node type in targets map", none)

/-- Body run for one targets-section entry: collect the node names,
notify the delegate via loadedTarget, then store the fresh target. -/
def parseTargetEntry (st : PState) (name : String) (items : List YNode) :
    PState × Bool :=
  match targetNamesLoop st [] items with
  | (st', none) => (st', false)
  | (st', some names) =>
      let tgt : Target := { name := name, nodeNames := names }
      let st2 := st'.emit (Event.loadedTarget name)
      ({ st2 with targets := insertKV name tgt st2.targets }, true)

/-- BuildFileImpl::parseTargetsMapping: each entry maps a scalar target
name to a sequence of scalar node names. -/
def parseTargetsMapping (st : PState) :
    List (YNode × YNode) → PState × Bool
  | [] => (st, true)
  | (k, v) :: rest =>
      match k with
      | YNode.scalar name =>
          match v with
          | YNode.sequence items =>
              match parseTargetEntry st name items with
              | (st', true) => parseTargetsMapping st' rest
              | (st', false) => (st', false)
          | _ => (st.err "invalid value type in targets map", false)
      | _ => (st.err "invalid key type in targets map", false)

/-- Node attribute loop of BuildFileImpl::parseNodesMapping; the C++
diagnostics here reuse the tools-map wording. -/
def nodeAttrsLoop (d : Delegate) (st : PState) (nodeName : String) :
    List (YNode × YNode) → PState × Bool
  | [] => (st, true)
  | (k, v) :: rest =>
      match k with
      | YNode.scalar key =>
          match v with
          | YNode.scalar value =>
              let ok := d.nodeAttrOk nodeName key value
              let st' := st.emit (Event.configAttr EntityKind.node nodeName key value ok)
              if ok then nodeAttrsLoop d st' nodeName rest
              else (st', false)
          | _ => (st.err "invalid value type in tools map", false)
      | _ => (st.err "invalid key type in tools map", false)

/-- Body run for one nodes-section entry: resolve-or-create the node
with isImplicit set to false, then configure its attributes. -/
def parseNodeEntry (d : Delegate) (st : PState) (name : String)
    (attrs : List (YNode × YNode)) : PState × Bool :=
  match getOrCreateNode d st name false with
  | (st', node) => nodeAttrsLoop d st' node.name attrs

/-- BuildFileImpl::parseNodesMapping: each entry maps a scalar node
name to a mapping of scalar attributes. -/
def parseNodesMapping (d : Delegate) (st : PState) :
    List (YNode × YNode) → PState × Bool
  | [] => (st, true)
  | (k, v) :: rest =>
      match k with
      | YNode.scalar name =>
          match v with
          | YNode.mapping attrs =>
              match parseNodeEntry d st name attrs with
              | (st', true) => parseNodesMapping d st' rest
              | (st', false) => (st', false)
          | _ => (st.err "invalid value type in nodes map", false)
      | _ => (st.err "invalid key type in nodes map", false)

/-- Scalar node-name list reader shared by the inputs and outputs task
keys: each name resolves-or-creates a node with isImplicit true; the
which argument selects the diagnostic wording. -/
def readNodeList (d : Delegate) (st : PState) (acc : List NodeEnt)
    (which : String) : List YNode → PState × Option (List NodeEnt)
  | [] => (st, some acc)
  | n :: rest =>
      match n with
      | YNode.scalar s =>
          match getOrCreateNode d st s true with
          | (st', nd) => readNodeList d st' (acc ++ [nd]) which rest
      | _ =>
          (st.err (String.append (String.append "invalid node type in " which)
            " task key"), none)

/-- Remaining-pairs loop of BuildFileImpl::parseTasksMapping: inputs
and outputs install node lists, any other key is a scalar attribute
whose rejection returns failure with no error report. -/
def taskAttrsLoop (d : Delegate) (st : PState) (task : TaskEnt) :
    List (YNode × YNode) → PState × Option TaskEnt
  | [] => (st, some task)
  | (k, v) :: rest =>
      if nodeIsScalarString k "inputs" then
        match v with
        | YNode.sequence items =>
            match readNodeList d st [] "inputs" items with
            | (st', some nds) =>
                taskAttrsLoop d st' { task with inputs := nds } rest
            | (st', none) => (st', none)
        | _ => (st.err "invalid value type for inputs task key", none)
      else if nodeIsScalarString k "outputs" then
        match v with
        | YNode.sequence items =>
            match readNodeList d st [] "outputs" items with
            | (st', some nds) =>
                taskAttrsLoop d st' { task with outputs := nds } rest
            | (st', none) => (st', none)
        | _ => (st.err "invalid value type for outputs task key", none)
      else
        match k with
        | YNode.scalar key =>
            match v with
            | YNode.scalar value =>
                let ok := d.taskAttrOk task.name key value
                let st' := st.emit (Event.configAttr EntityKind.task task.name key value ok)
                if ok then
                  taskAttrsLoop d st'
                    { task with attributes := task.attributes ++ [(key, value)] } rest
                else (st', none)
            | _ => (st.err "invalid value type in tools map", none)
        | _ => (st.err "invalid key type in tools map", none)

/-- Body run for one tasks-section entry: the first pair must be tool
mapped to a scalar tool name; the tool is resolved-or-created, its
createTask factory is called with the task name, the remaining pairs
are processed, the delegate is notified via loadedTask, and the task
is stored. -/
def parseTaskEntry (d : Delegate) (st : PState) (name : String)
    (attrs : List (YNode × YNode)) : PState × Bool :=
  match attrs with
  | [] => (st.err "missing tool key in task map", false)
  | (k, v) :: rest =>
      if nodeIsScalarString k "tool" then
        match v with
        | YNode.scalar toolName =>
            match getOrCreateTool d st toolName with
            | (st', none) => (st', false)
            | (st', some tool) =>
                let task0 : TaskEnt :=
                  { name := name, toolName := tool.name,
                    inputs := [], outputs := [], attributes := [] }
                let st2 := st'.emit (Event.createTask tool.name name)
                match taskAttrsLoop d st2 task0 rest with
                | (st3, none) => (st3, false)
                | (st3, some task) =>
                    let st4 := st3.emit (Event.loadedTask name)
                    ({ st4 with tasks := insertKV name task st4.tasks }, true)
        | _ => (st.err "invalid tool value type in tasks map", false)
      else (st.err "expected tool initial key in tasks map", false)

/-- BuildFileImpl::parseTasksMapping: each entry maps a scalar task
name to a mapping whose first pair names the tool. -/
def parseTasksMapping (d : Delegate) (st : PState) :
    List (YNode × YNode) → PState × Bool
  | [] => (st, true)
  | (k, v) :: rest =>
      match k with
      | YNode.scalar name =>
          match v with
          | YNode.mapping attrs =>
              match parseTaskEntry d st name attrs with
              | (st', true) => parseTasksMapping d st' rest
              | (st', false) => (st', false)
          | _ => (st.err "invalid value type in tasks map", false)
      | _ => (st.err "invalid key type in tasks map", false)

/-- Trailing check after the last recognised section: any remaining
entry is an unexpected trailing top-level section. -/
def afterTasks (st : PState) (rest : List (YNode × YNode)) : PState × Bool :=
  match rest with
  | [] => (st, true)
  | _ :: _ => (st.err "unexpected trailing top-level section", false)

/-- Optional tasks section of BuildFileImpl::parseRootNode. -/
def tasksSection (d : Delegate) (st : PState)
    (rest : List (YNode × YNode)) : PState × Bool :=
  match rest with
  | (k, v) :: rest' =>
      if nodeIsScalarString k "tasks" then
        match v with
        | YNode.mapping m =>
            match parseTasksMapping d st m with
            | (st', true) => afterTasks st' rest'
            | (st', false) => (st', false)
        | _ => (st.err "unexpected tasks value (expected map)", false)
      else afterTasks st rest
  | [] => afterTasks st []

/-- Optional nodes section of BuildFileImpl::parseRootNode. -/
def nodesSection (d : Delegate) (st : PState)
    (rest : List (YNode × YNode)) : PState × Bool :=
  match rest with
  | (k, v) :: rest' =>
      if nodeIsScalarString k "nodes" then
        match v with
        | YNode.mapping m =>
            match parseNodesMapping d st m with
            | (st', true) => tasksSection d st' rest'
            | (st', false) => (st', false)
        | _ => (st.err "unexpected nodes value (expected map)", false)
      else tasksSection d st rest
  | [] => tasksSection d st []

/-- Optional targets section of BuildFileImpl::parseRootNode. -/
def targetsSection (d : Delegate) (st : PState)
    (rest : List (YNode × YNode)) : PState × Bool :=
  match rest with
  | (k, v) :: rest' =>
      if nodeIsScalarString k "targets" then
        match v with
        | YNode.mapping m =>
            match parseTargetsMapping st m with
            | (st', true) => nodesSection d st' rest'
            | (st', false) => (st', false)
        | _ => (st.err "unexpected targets value (expected map)", false)
      else nodesSection d st rest
  | [] => nodesSection d st []

/-- Optional tools section of BuildFileImpl::parseRootNode. -/
def toolsSection (d : Delegate) (st : PState)
    (rest : List (YNode × YNode)) : PState × Bool :=
  match rest with
  | (k, v) :: rest' =>
      if nodeIsScalarString k "tools" then
        match v with
        | YNode.mapping m =>
            match parseToolsMapping d st m with
            | (st', true) => targetsSection d st' rest'
            | (st', false) => (st', false)
        | _ => (st.err "unexpected tools value (expected map)", false)
      else targetsSection d st rest
  | [] => targetsSection d st []

/-- BuildFileImpl::parseRootNode applied to the first entry of a
nonempty top-level mapping: the first key must be client with a
mapping value, then the optional sections tools, targets, nodes,
tasks are consumed in that order, and trailing entries are
rejected. -/
def parseRootEntries (d : Delegate) (st : PState) (k v : YNode)
    (rest : List (YNode × YNode)) : PState × Bool :=
  if nodeIsScalarString k "client" then
    match v with
    | YNode.mapping clientEntries =>
        match parseClientMapping d st clientEntries with
        | (st', true) => toolsSection d st' rest
        | (st', false) => (st', false)
    | _ => (st.err "unexpected client value (expected map)", false)
  else (st.err "expected initial mapping key client", false)

/-- BuildFileImpl::parseRootNode: a non-mapping root reports an error;
for a mapping root the code reads the begin iterator of the mapping
without checking it against end, so an empty root mapping dereferences
the end iterator and has no defined result, modelled as none. -/
def parseRootNode (d : Delegate) (st : PState) (root : YNode) :
    Option (PState × Bool) :=
  match root with
  | YNode.mapping [] => none
  | YNode.mapping ((k, v) :: rest) => some (parseRootEntries d st k v rest)
  | _ => some (st.err "unexpected top-level node", false)

/-- Consume a key from the ordered list of still-allowed section names,
returning the names that may follow it. -/
def consumeKey (s : String) : List String → Option (List String)
  | [] => none
  | a :: as => if a = s then some as else consumeKey s as

/-- Check that a list of top-level entries is a subsequence of the
allowed section names in order, each with a mapping value. -/
def sectionsOk (allowed : List String) : List (YNode × YNode) → Bool
  | [] => true
  | (k, v) :: rest =>
      match k with
      | YNode.scalar s =>
          match consumeKey s allowed with
          | some remaining =>
              match v with
              | YNode.mapping _ => sectionsOk remaining rest
              | _ => false
          | none => false
      | _ => false

/-- Spec-side well-formedness of the top level, following section 4.1
of the specification: the root is a mapping whose first key is client
with a mapping value, followed by the optional sections tools,
targets, nodes, tasks in that relative order, each a mapping, with no
repeats, no unrecognised section and no trailing entries. -/
def structOkB (root : YNode) : Bool :=
  match root with
  | YNode.mapping ((k, v) :: rest) =>
      nodeIsScalarString k "client" &&
        (match v with
         | YNode.mapping _ => sectionsOk ["tools", "targets", "nodes", "tasks"] rest
         | _ => false)
  | _ => false

/-- Delegate configureAttribute decision for a given entity kind. -/
def attrOkOf (d : Delegate) : EntityKind → String → String → String → Bool
  | EntityKind.tool => d.toolAttrOk
  | EntityKind.node => d.nodeAttrOk
  | EntityKind.task => d.taskAttrOk

/-- Boolean test for an error event. -/
def isErrorEventB : Event → Bool
  | Event.error _ _ => true
  | _ => false

/-- Some delegate.error call occurs in the event list. -/
def hasErrorEvent (l : List Event) : Prop :=
  ∃ f m, Event.error f m ∈ l

/-- Evidence a failure leaves in the trace: either a delegate.error
call, or a configureAttribute call that the delegate rejected. -/
def failWitness (d : Delegate) (l : List Event) : Prop :=
  hasErrorEvent l ∨
    ∃ k n a v, Event.configAttr k n a v false ∈ l ∧ attrOkOf d k n a v = false

/-- Delegate whose attribute-configuration callbacks always accept. -/
def benign (d : Delegate) : Prop :=
  (∀ t k v, d.toolAttrOk t k v = true) ∧
  (∀ n k v, d.nodeAttrOk n k v = true) ∧
  (∀ t k v, d.taskAttrOk t k v = true)

/-- Keys of an association list are pairwise distinct. -/
def goodKeys {α : Type} (m : List (String × α)) : Prop :=
  (m.map Prod.fst).Nodup

/-- Specification of one parser step: the trace is only extended, a
failing step leaves failure evidence among the new events, and key
uniqueness of the tool and node registries is preserved. -/
structure StepOK (d : Delegate) (st st' : PState) (ok : Bool) : Prop where
  ext : ∃ evts, st'.trace = st.trace ++ evts ∧ (ok = false → failWitness d evts)
  tgood : goodKeys st.tools → goodKeys st'.tools
  ngood : goodKeys st.nodes → goodKeys st'.nodes

/-- Delegate accepting every configuration request and recognising
every tool name. -/
def benignDelegate : Delegate :=
  { lookupToolOk := fun _ => true,
    clientOk := fun _ _ _ => true,
    toolAttrOk := fun _ _ _ => true,
    nodeAttrOk := fun _ _ _ => true,
    taskAttrOk := fun _ _ _ => true }

/-- Delegate whose tool configureAttribute always rejects, used to
exhibit the silent failure path of the tools attribute loop. -/
def rejectingToolAttrDelegate : Delegate :=
  { lookupToolOk := fun _ => true,
    clientOk := fun _ _ _ => true,
    toolAttrOk := fun _ _ _ => false,
    nodeAttrOk := fun _ _ _ => true,
    taskAttrOk := fun _ _ _ => true }

/-- Document with a tools-section attribute, driving the parse into a
tool configureAttribute call. -/
def toolAttrDoc : YNode :=
  YNode.mapping
    [ (YNode.scalar "client", YNode.mapping []),
      (YNode.scalar "tools",
        YNode.mapping [ (YNode.scalar "t",
          YNode.mapping [ (YNode.scalar "k", YNode.scalar "v") ]) ]) ]

/-- State in which the parse of toolAttrDoc under the
attribute-rejecting delegate ends: the client was configured, the tool
t created, and its attribute rejected, with no error event. -/
def toolAttrFailState : PState :=
  { mainFilename := "build.llbuild",
    tools := [("t", { name := "t", uid := 0 })],
    nodes := [], targets := [], tasks := [],
    trace := [Event.configureClient "" 0 [] true,
              Event.lookupTool "t" true,
              Event.configAttr EntityKind.tool "t" "k" "v" false],
    nextId := 1 }

/-- Delegate whose configureClient always rejects, used to exercise
the rejected-client-configuration failure path. -/
def rejectingClientDelegate : Delegate :=
  { lookupToolOk := fun _ => true,
    clientOk := fun _ _ _ => false,
    toolAttrOk := fun _ _ _ => true,
    nodeAttrOk := fun _ _ _ => true,
    taskAttrOk := fun _ _ _ => true }

/-- Delegate for the round-trip scenario: knows exactly the shell tool
and accepts everything else. -/
def exDelegate : Delegate :=
  { lookupToolOk := fun s => s == "shell",
    clientOk := fun _ _ _ => true,
    toolAttrOk := fun _ _ _ => true,
    nodeAttrOk := fun _ _ _ => true,
    taskAttrOk := fun _ _ _ => true }

/-- Round-trip scenario document from the specification: client name
test version 0, empty tool shell, and a build task using shell with
inputs a.c, outputs a.o and the attribute args set to -c. -/
def exDoc : YNode :=
  YNode.mapping
    [ (YNode.scalar "client",
        YNode.mapping [ (YNode.scalar "name", YNode.scalar "test"),
                        (YNode.scalar "version", YNode.scalar "0") ]),
      (YNode.scalar "tools",
        YNode.mapping [ (YNode.scalar "shell", YNode.mapping []) ]),
      (YNode.scalar "tasks",
        YNode.mapping
          [ (YNode.scalar "build",
              YNode.mapping
                [ (YNode.scalar "tool", YNode.scalar "shell"),
                  (YNode.scalar "inputs", YNode.sequence [YNode.scalar "a.c"]),
                  (YNode.scalar "outputs", YNode.sequence [YNode.scalar "a.o"]),
                  (YNode.scalar "args", YNode.scalar "-c") ]) ]) ]

/-- Scalar key/value pairs wrapped as tree entries, the shape consumed
by the client-mapping parser. -/
def scalarPairs (ps : List (String × String)) : List (YNode × YNode) :=
  ps.map (fun p => (YNode.scalar p.1, YNode.scalar p.2))

/-- Parser state with one registered tool and one registered node,
used to exercise the lookup paths at concrete inputs. -/
def seededState : PState :=
  { mainFilename := "f",
    tools := [("sh", { name := "sh", uid := 0 })],
    nodes := [("a", { name := "a", isImplicit := true, uid := 1 })],
    targets := [], tasks := [], trace := [], nextId := 2 }

/-- State reached after reading the singleton node-name list z from
the initial state. -/
def oneNodeState : PState :=
  { mainFilename := "f", tools := [],
    nodes := [("z", { name := "z", isImplicit := true, uid := 0 })],
    targets := [], tasks := [],
    trace := [Event.lookupNode "z" true], nextId := 1 }

/-- State reached after parsing the target entry tg with the single
node name p from the initial state. -/
def targetDoneState : PState :=
  { mainFilename := "f", tools := [], nodes := [],
    targets := [("tg", { name := "tg", nodeNames := ["p"] })],
    tasks := [], trace := [Event.loadedTarget "tg"], nextId := 0 }

/-- State reached after parsing the task entry tk using tool sh from
the initial state. -/
def taskDoneState : PState :=
  { mainFilename := "f",
    tools := [("sh", { name := "sh", uid := 0 })], nodes := [],
    targets := [],
    tasks := [("tk",
      { name := "tk", toolName := "sh",
        inputs := [], outputs := [], attributes := [] })],
    trace := [Event.lookupTool "sh" true, Event.createTask "sh" "tk",
              Event.loadedTask "tk"],
    nextId := 1 }

lemma benign_failWitness {d : Delegate} {l : List Event}
    (hb : benign d) (h : failWitness d l) : hasErrorEvent l := by
  rcases h with h | ⟨k, n, a, v, _, hk⟩
  · exact h
  · exfalso
    cases k <;> simp [attrOkOf, hb.1, hb.2.1, hb.2.2] at hk

lemma failWitness_append_left {d : Delegate} {l1 l2 : List Event}
    (h : failWitness d l1) : failWitness d (l1 ++ l2) := by
  rcases h with ⟨f, m, hm⟩ | ⟨k, n, a, v, hm, hk⟩
  · exact Or.inl ⟨f, m, List.mem_append_left _ hm⟩
  · exact Or.inr ⟨k, n, a, v, List.mem_append_left _ hm, hk⟩

lemma failWitness_append_right {d : Delegate} {l1 l2 : List Event}
    (h : failWitness d l2) : failWitness d (l1 ++ l2) := by
  rcases h with ⟨f, m, hm⟩ | ⟨k, n, a, v, hm, hk⟩
  · exact Or.inl ⟨f, m, List.mem_append_right _ hm⟩
  · exact Or.inr ⟨k, n, a, v, List.mem_append_right _ hm, hk⟩

lemma stepOK_same {d : Delegate} {st st' : PState} (h : st' = st) :
    StepOK d st st' true := by
  subst h
  exact ⟨⟨[], by simp, by simp⟩, id, id⟩

lemma stepOK_emit {d : Delegate} {st : PState} (e : Event) :
    StepOK d st (st.emit e) true :=
  ⟨⟨[e], rfl, by simp⟩, id, id⟩

lemma err_trace (st : PState) (m : String) :
    (st.err m).trace = st.trace ++ [Event.error st.mainFilename m] := rfl

lemma stepOK_err {d : Delegate} {st : PState} (m : String) {b : Bool} :
    StepOK d st (st.err m) b :=
  ⟨⟨[Event.error st.mainFilename m], rfl,
    fun _ => Or.inl ⟨st.mainFilename, m, List.mem_singleton_self _⟩⟩, id, id⟩

lemma stepOK_trans {d : Delegate} {st1 st2 st3 : PState} {b : Bool}
    (h1 : StepOK d st1 st2 true) (h2 : StepOK d st2 st3 b) :
    StepOK d st1 st3 b := by
  obtain ⟨e1, he1, _⟩ := h1.ext
  obtain ⟨e2, he2, hf2⟩ := h2.ext
  refine ⟨⟨e1 ++ e2, ?_, ?_⟩, fun h => h2.tgood (h1.tgood h),
    fun h => h2.ngood (h1.ngood h)⟩
  · rw [he2, he1, List.append_assoc]
  · exact fun hb => failWitness_append_right (hf2 hb)

lemma insertKV_cons_self {α : Type} (k : String) (v v' : α)
    (tl : List (String × α)) :
    insertKV k v ((k, v') :: tl) = (k, v) :: tl := by
  simp [insertKV]

lemma insertKV_cons_ne {α : Type} {k k' : String} (h : k' ≠ k) (v v' : α)
    (tl : List (String × α)) :
    insertKV k v ((k', v') :: tl) = (k', v') :: insertKV k v tl := by
  simp [insertKV, h]

lemma lookupKV_cons_self {α : Type} (k : String) (v : α)
    (tl : List (String × α)) :
    lookupKV k ((k, v) :: tl) = some v := by
  simp [lookupKV]

lemma lookupKV_cons_ne {α : Type} {k k' : String} (h : k' ≠ k) (v : α)
    (tl : List (String × α)) :
    lookupKV k ((k', v) :: tl) = lookupKV k tl := by
  simp [lookupKV, h]

lemma mem_keys_insertKV {α : Type} {a k : String} {v : α} :
    ∀ {m : List (String × α)}, a ∈ (insertKV k v m).map Prod.fst →
      a = k ∨ a ∈ m.map Prod.fst := by
  intro m
  induction m with
  | nil =>
      intro h
      simp only [insertKV, List.map_cons, List.map_nil, List.mem_singleton] at h
      exact Or.inl h
  | cons hd tl ih =>
      obtain ⟨k', v'⟩ := hd
      intro h
      by_cases hk : k' = k
      · subst hk
        simp only [insertKV, if_pos rfl, List.map_cons] at h
        rcases List.mem_cons.mp h with h | h
        · exact Or.inl h
        · exact Or.inr (by simp only [List.map_cons]; exact List.mem_cons_of_mem _ h)
      · simp only [insertKV, if_neg hk, List.map_cons] at h
        rcases List.mem_cons.mp h with h | h
        · exact Or.inr (by simp only [List.map_cons]; exact List.mem_cons.mpr (Or.inl h))
        · rcases ih h with h | h
          · exact Or.inl h
          · exact Or.inr (by simp only [List.map_cons]; exact List.mem_cons_of_mem _ h)

lemma goodKeys_insertKV {α : Type} {k : String} {v : α} :
    ∀ {m : List (String × α)}, goodKeys m → goodKeys (insertKV k v m) := by
  intro m
  induction m with
  | nil => intro _; simp [goodKeys, insertKV]
  | cons hd tl ih =>
      obtain ⟨k', v'⟩ := hd
      intro h
      unfold goodKeys at h ⊢
      simp only [List.map_cons, List.nodup_cons] at h
      by_cases hk : k' = k
      · subst hk
        rw [insertKV_cons_self]
        simp only [List.map_cons, List.nodup_cons]
        exact ⟨h.1, h.2⟩
      · rw [insertKV_cons_ne hk]
        simp only [List.map_cons, List.nodup_cons]
        refine ⟨fun hc => ?_, ih h.2⟩
        rcases mem_keys_insertKV hc with hc | hc
        · exact hk hc
        · exact h.1 hc

lemma lookupKV_insertKV_self {α : Type} (k : String) (v : α) :
    ∀ (m : List (String × α)), lookupKV k (insertKV k v m) = some v := by
  intro m
  induction m with
  | nil => simp [insertKV, lookupKV]
  | cons hd tl ih =>
      obtain ⟨k', v'⟩ := hd
      by_cases hk : k' = k
      · simp [insertKV, hk, lookupKV]
      · simp [insertKV, hk, lookupKV, ih]

lemma lookupKV_insertKV_ne {α : Type} {a k : String} (hne : a ≠ k) (v : α) :
    ∀ (m : List (String × α)), lookupKV a (insertKV k v m) = lookupKV a m := by
  have hka : ¬(k = a) := fun h => hne h.symm
  intro m
  induction m with
  | nil => simp [insertKV, lookupKV, hka]
  | cons hd tl ih =>
      obtain ⟨k', v'⟩ := hd
      by_cases hk : k' = k
      · subst hk
        rw [insertKV_cons_self, lookupKV_cons_ne hne.symm, lookupKV_cons_ne hne.symm]
      · rw [insertKV_cons_ne hk]
        by_cases ha : k' = a
        · subst ha
          rw [lookupKV_cons_self, lookupKV_cons_self]
        · rw [lookupKV_cons_ne ha, lookupKV_cons_ne ha, ih]

lemma getOrCreateTool_step (d : Delegate) (st : PState) (name : String) :
    StepOK d st (getOrCreateTool d st name).1 (getOrCreateTool d st name).2.isSome := by
  cases h : lookupKV name st.tools with
  | some t => simp only [getOrCreateTool, h]; exact stepOK_same rfl
  | none =>
      simp only [getOrCreateTool, h]
      by_cases hl : d.lookupToolOk name = true
      · rw [if_pos hl]
        exact ⟨⟨[Event.lookupTool name true], rfl, by simp⟩,
          fun hg => goodKeys_insertKV hg, id⟩
      · rw [if_neg hl]
        exact stepOK_trans (stepOK_emit _) (stepOK_err _)

lemma getOrCreateNode_step (d : Delegate) (st : PState) (name : String) (b : Bool) :
    StepOK d st (getOrCreateNode d st name b).1 true := by
  cases h : lookupKV name st.nodes with
  | some n => simp only [getOrCreateNode, h]; exact stepOK_same rfl
  | none =>
      simp only [getOrCreateNode, h]
      exact ⟨⟨[Event.lookupNode name b], rfl, by simp⟩,
        id, fun hg => goodKeys_insertKV hg⟩

lemma clientLoop_step (d : Delegate) (st : PState) (n : String) (v : Nat)
    (p : List (String × String)) (l : List (YNode × YNode)) :
    StepOK d st (clientLoop st n v p l).1 (clientLoop st n v p l).2.isSome := by
  induction l generalizing n v p with
  | nil => exact stepOK_same rfl
  | cons hd tl ih =>
      obtain ⟨k, val⟩ := hd
      cases k with
      | scalar key =>
          cases val with
          | scalar value =>
              simp only [clientLoop]
              by_cases h1 : key = "name"
              · rw [if_pos h1]; exact ih _ _ _
              · rw [if_neg h1]
                by_cases h2 : key = "version"
                · rw [if_pos h2]
                  cases hp : parseUInt32 value with
                  | some ver => exact ih _ _ _
                  | none => exact stepOK_err _
                · rw [if_neg h2]; exact ih _ _ _
          | null => exact stepOK_err _
          | mapping es => exact stepOK_err _
          | sequence its => exact stepOK_err _
          | aliasNode => exact stepOK_err _
      | null => exact stepOK_err _
      | mapping es => exact stepOK_err _
      | sequence its => exact stepOK_err _
      | aliasNode => exact stepOK_err _

lemma parseClientMapping_step (d : Delegate) (st : PState)
    (entries : List (YNode × YNode)) :
    StepOK d st (parseClientMapping d st entries).1
      (parseClientMapping d st entries).2 := by
  have h := clientLoop_step d st "" 0 [] entries
  cases hc : clientLoop st "" 0 [] entries with
  | mk st' r =>
      rw [hc] at h
      cases r with
      | none => simp only [parseClientMapping, hc]; exact h
      | some trip =>
          obtain ⟨n, v, props⟩ := trip
          by_cases hok : d.clientOk n v props = true
          · simp only [parseClientMapping, hc, hok, if_true]
            exact stepOK_trans h (stepOK_emit _)
          · rw [Bool.not_eq_true] at hok
            simp only [parseClientMapping, hc, hok, Bool.false_eq_true, if_false]
            exact stepOK_trans h (stepOK_trans (stepOK_emit _) (stepOK_err _))

lemma toolAttrsLoop_step (d : Delegate) (st : PState) (tn : String)
    (l : List (YNode × YNode)) :
    StepOK d st (toolAttrsLoop d st tn l).1 (toolAttrsLoop d st tn l).2 := by
  induction l generalizing st with
  | nil => exact stepOK_same rfl
  | cons hd tl ih =>
      obtain ⟨k, v⟩ := hd
      cases k with
      | scalar key =>
          cases v with
          | scalar value =>
              by_cases hok : d.toolAttrOk tn key value = true
              · simp only [toolAttrsLoop, hok, if_true]
                exact stepOK_trans (stepOK_emit _) (ih _)
              · rw [Bool.not_eq_true] at hok
                simp only [toolAttrsLoop, hok, Bool.false_eq_true, if_false]
                exact ⟨⟨[Event.configAttr EntityKind.tool tn key value false], rfl,
                  fun _ => Or.inr ⟨EntityKind.tool, tn, key, value,
                    List.mem_singleton_self _, hok⟩⟩, id, id⟩
          | null => exact stepOK_err _
          | mapping es => exact stepOK_err _
          | sequence its => exact stepOK_err _
          | aliasNode => exact stepOK_err _
      | null => exact stepOK_err _
      | mapping es => exact stepOK_err _
      | sequence its => exact stepOK_err _
      | aliasNode => exact stepOK_err _

lemma parseToolsMapping_step (d : Delegate) (st : PState)
    (l : List (YNode × YNode)) :
    StepOK d st (parseToolsMapping d st l).1 (parseToolsMapping d st l).2 := by
  induction l generalizing st with
  | nil => exact stepOK_same rfl
  | cons hd tl ih =>
      obtain ⟨k, v⟩ := hd
      cases k with
      | scalar name =>
          cases v with
          | mapping attrs =>
              have hg := getOrCreateTool_step d st name
              cases hgc : getOrCreateTool d st name with
              | mk st' r =>
                  rw [hgc] at hg
                  cases r with
                  | none => simp only [parseToolsMapping, hgc]; exact hg
                  | some tool =>
                      have ha := toolAttrsLoop_step d st' tool.name attrs
                      cases hal : toolAttrsLoop d st' tool.name attrs with
                      | mk st2 b =>
                          rw [hal] at ha
                          cases b with
                          | true =>
                              simp only [parseToolsMapping, hgc, hal]
                              exact stepOK_trans hg (stepOK_trans ha (ih st2))
                          | false =>
                              simp only [parseToolsMapping, hgc, hal]
                              exact stepOK_trans hg ha
          | null => exact stepOK_err _
          | scalar s => exact stepOK_err _
          | sequence its => exact stepOK_err _
          | aliasNode => exact stepOK_err _
      | null => exact stepOK_err _
      | mapping es => exact stepOK_err _
      | sequence its => exact stepOK_err _
      | aliasNode => exact stepOK_err _

lemma targetNamesLoop_step (d : Delegate) (st : PState) (acc : List String)
    (l : List YNode) :
    StepOK d st (targetNamesLoop st acc l).1 (targetNamesLoop st acc l).2.isSome := by
  induction l generalizing acc with
  | nil => exact stepOK_same rfl
  | cons hd tl ih =>
      cases hd with
      | scalar s => simp only [targetNamesLoop]; exact ih _
      | null => exact stepOK_err _
      | mapping es => exact stepOK_err _
      | sequence its => exact stepOK_err _
      | aliasNode => exact stepOK_err _

lemma parseTargetEntry_step (d : Delegate) (st : PState) (name : String)
    (items : List YNode) :
    StepOK d st (parseTargetEntry st name items).1 (parseTargetEntry st name items).2 := by
  have h := targetNamesLoop_step d st [] items
  cases hl : targetNamesLoop st [] items with
  | mk st' r =>
      rw [hl] at h
      cases r with
      | none => simp only [parseTargetEntry, hl]; exact h
      | some names =>
          simp only [parseTargetEntry, hl]
          exact stepOK_trans h ⟨⟨[Event.loadedTarget name], rfl, by simp⟩, id, id⟩

lemma parseTargetsMapping_step (d : Delegate) (st : PState)
    (l : List (YNode × YNode)) :
    StepOK d st (parseTargetsMapping st l).1 (parseTargetsMapping st l).2 := by
  induction l generalizing st with
  | nil => exact stepOK_same rfl
  | cons hd tl ih =>
      obtain ⟨k, v⟩ := hd
      cases k with
      | scalar name =>
          cases v with
          | sequence items =>
              have he := parseTargetEntry_step d st name items
              cases hec : parseTargetEntry st name items with
              | mk st' b =>
                  rw [hec] at he
                  cases b with
                  | true =>
                      simp only [parseTargetsMapping, hec]
                      exact stepOK_trans he (ih st')
                  | false =>
                      simp only [parseTargetsMapping, hec]
                      exact he
          | null => exact stepOK_err _
          | scalar s => exact stepOK_err _
          | mapping es => exact stepOK_err _
          | aliasNode => exact stepOK_err _
      | null => exact stepOK_err _
      | mapping es => exact stepOK_err _
      | sequence its => exact stepOK_err _
      | aliasNode => exact stepOK_err _

lemma nodeAttrsLoop_step (d : Delegate) (st : PState) (nn : String)
    (l : List (YNode × YNode)) :
    StepOK d st (nodeAttrsLoop d st nn l).1 (nodeAttrsLoop d st nn l).2 := by
  induction l generalizing st with
  | nil => exact stepOK_same rfl
  | cons hd tl ih =>
      obtain ⟨k, v⟩ := hd
      cases k with
      | scalar key =>
          cases v with
          | scalar value =>
              by_cases hok : d.nodeAttrOk nn key value = true
              · simp only [nodeAttrsLoop, hok, if_true]
                exact stepOK_trans (stepOK_emit _) (ih _)
              · rw [Bool.not_eq_true] at hok
                simp only [nodeAttrsLoop, hok, Bool.false_eq_true, if_false]
                exact ⟨⟨[Event.configAttr EntityKind.node nn key value false], rfl,
                  fun _ => Or.inr ⟨EntityKind.node, nn, key, value,
                    List.mem_singleton_self _, hok⟩⟩, id, id⟩
          | null => exact stepOK_err _
          | mapping es => exact stepOK_err _
          | sequence its => exact stepOK_err _
          | aliasNode => exact stepOK_err _
      | null => exact stepOK_err _
      | mapping es => exact stepOK_err _
      | sequence its => exact stepOK_err _
      | aliasNode => exact stepOK_err _

lemma parseNodeEntry_step (d : Delegate) (st : PState) (name : String)
    (attrs : List (YNode × YNode)) :
    StepOK d st (parseNodeEntry d st name attrs).1 (parseNodeEntry d st name attrs).2 := by
  have hg := getOrCreateNode_step d st name false
  cases hgc : getOrCreateNode d st name false with
  | mk st' node =>
      rw [hgc] at hg
      simp only [parseNodeEntry, hgc]
      exact stepOK_trans hg (nodeAttrsLoop_step d st' node.name attrs)

lemma parseNodesMapping_step (d : Delegate) (st : PState)
    (l : List (YNode × YNode)) :
    StepOK d st (parseNodesMapping d st l).1 (parseNodesMapping d st l).2 := by
  induction l generalizing st with
  | nil => exact stepOK_same rfl
  | cons hd tl ih =>
      obtain ⟨k, v⟩ := hd
      cases k with
      | scalar name =>
          cases v with
          | mapping attrs =>
              have he := parseNodeEntry_step d st name attrs
              cases hec : parseNodeEntry d st name attrs with
              | mk st' b =>
                  rw [hec] at he
                  cases b with
                  | true =>
                      simp only [parseNodesMapping, hec]
                      exact stepOK_trans he (ih st')
                  | false =>
                      simp only [parseNodesMapping, hec]
                      exact he
          | null => exact stepOK_err _
          | scalar s => exact stepOK_err _
          | sequence its => exact stepOK_err _
          | aliasNode => exact stepOK_err _
      | null => exact stepOK_err _
      | mapping es => exact stepOK_err _
      | sequence its => exact stepOK_err _
      | aliasNode => exact stepOK_err _

lemma readNodeList_step (d : Delegate) (st : PState) (acc : List NodeEnt)
    (w : String) (l : List YNode) :
    StepOK d st (readNodeList d st acc w l).1 (readNodeList d st acc w l).2.isSome := by
  induction l generalizing st acc with
  | nil => exact stepOK_same rfl
  | cons hd tl ih =>
      cases hd with
      | scalar s =>
          have hg := getOrCreateNode_step d st s true
          cases hgc : getOrCreateNode d st s true with
          | mk st' nd =>
              rw [hgc] at hg
              simp only [readNodeList, hgc]
              exact stepOK_trans hg (ih _ _)
      | null => exact stepOK_err _
      | mapping es => exact stepOK_err _
      | sequence its => exact stepOK_err _
      | aliasNode => exact stepOK_err _

lemma taskAttrsLoop_step (d : Delegate) (st : PState) (task : TaskEnt)
    (l : List (YNode × YNode)) :
    StepOK d st (taskAttrsLoop d st task l).1 (taskAttrsLoop d st task l).2.isSome := by
  induction l generalizing st task with
  | nil => exact stepOK_same rfl
  | cons hd tl ih =>
      obtain ⟨k, v⟩ := hd
      by_cases hi : nodeIsScalarString k "inputs" = true
      · cases v with
        | sequence items =>
            have hr := readNodeList_step d st [] "inputs" items
            cases hrc : readNodeList d st [] "inputs" items with
            | mk st' r =>
                rw [hrc] at hr
                cases r with
                | some nds =>
                    simp only [taskAttrsLoop, hi, if_true, hrc]
                    exact stepOK_trans hr (ih _ _)
                | none =>
                    simp only [taskAttrsLoop, hi, if_true, hrc]
                    exact hr
        | null => simp only [taskAttrsLoop, hi, if_true]; exact stepOK_err _
        | scalar s => simp only [taskAttrsLoop, hi, if_true]; exact stepOK_err _
        | mapping es => simp only [taskAttrsLoop, hi, if_true]; exact stepOK_err _
        | aliasNode => simp only [taskAttrsLoop, hi, if_true]; exact stepOK_err _
      · rw [Bool.not_eq_true] at hi
        by_cases ho : nodeIsScalarString k "outputs" = true
        · cases v with
          | sequence items =>
              have hr := readNodeList_step d st [] "outputs" items
              cases hrc : readNodeList d st [] "outputs" items with
              | mk st' r =>
                  rw [hrc] at hr
                  cases r with
                  | some nds =>
                      simp only [taskAttrsLoop, hi, Bool.false_eq_true, if_false,
                        ho, if_true, hrc]
                      exact stepOK_trans hr (ih _ _)
                  | none =>
                      simp only [taskAttrsLoop, hi, Bool.false_eq_true, if_false,
                        ho, if_true, hrc]
                      exact hr
          | null =>
              simp only [taskAttrsLoop, hi, Bool.false_eq_true, if_false, ho, if_true]
              exact stepOK_err _
          | scalar s =>
              simp only [taskAttrsLoop, hi, Bool.false_eq_true, if_false, ho, if_true]
              exact stepOK_err _
          | mapping es =>
              simp only [taskAttrsLoop, hi, Bool.false_eq_true, if_false, ho, if_true]
              exact stepOK_err _
          | aliasNode =>
              simp only [taskAttrsLoop, hi, Bool.false_eq_true, if_false, ho, if_true]
              exact stepOK_err _
        · rw [Bool.not_eq_true] at ho
          cases k with
          | scalar key =>
              cases v with
              | scalar value =>
                  by_cases hok : d.taskAttrOk task.name key value = true
                  · simp only [taskAttrsLoop, hi, ho, Bool.false_eq_true, if_false,
                      hok, if_true]
                    exact stepOK_trans (stepOK_emit _) (ih _ _)
                  · rw [Bool.not_eq_true] at hok
                    simp only [taskAttrsLoop, hi, ho, hok, Bool.false_eq_true, if_false]
                    exact ⟨⟨[Event.configAttr EntityKind.task task.name key value false],
                      rfl, fun _ => Or.inr ⟨EntityKind.task, task.name, key, value,
                        List.mem_singleton_self _, hok⟩⟩, id, id⟩
              | null =>
                  simp only [taskAttrsLoop, hi, ho, Bool.false_eq_true, if_false]
                  exact stepOK_err _
              | mapping es =>
                  simp only [taskAttrsLoop, hi, ho, Bool.false_eq_true, if_false]
                  exact stepOK_err _
              | sequence its =>
                  simp only [taskAttrsLoop, hi, ho, Bool.false_eq_true, if_false]
                  exact stepOK_err _
              | aliasNode =>
                  simp only [taskAttrsLoop, hi, ho, Bool.false_eq_true, if_false]
                  exact stepOK_err _
          | null =>
              simp only [taskAttrsLoop, hi, ho, Bool.false_eq_true, if_false]
              exact stepOK_err _
          | mapping es =>
              simp only [taskAttrsLoop, hi, ho, Bool.false_eq_true, if_false]
              exact stepOK_err _
          | sequence its =>
              simp only [taskAttrsLoop, hi, ho, Bool.false_eq_true, if_false]
              exact stepOK_err _
          | aliasNode =>
              simp only [taskAttrsLoop, hi, ho, Bool.false_eq_true, if_false]
              exact stepOK_err _

lemma parseTaskEntry_step (d : Delegate) (st : PState) (name : String)
    (attrs : List (YNode × YNode)) :
    StepOK d st (parseTaskEntry d st name attrs).1 (parseTaskEntry d st name attrs).2 := by
  cases attrs with
  | nil => exact stepOK_err _
  | cons hd rest =>
      obtain ⟨k, v⟩ := hd
      by_cases hk : nodeIsScalarString k "tool" = true
      · cases v with
        | scalar toolName =>
            have hg := getOrCreateTool_step d st toolName
            cases hgc : getOrCreateTool d st toolName with
            | mk st' r =>
                rw [hgc] at hg
                cases r with
                | none =>
                    simp only [parseTaskEntry, hk, if_true, hgc]
                    exact hg
                | some tool =>
                    have ha := taskAttrsLoop_step d
                      (st'.emit (Event.createTask tool.name name))
                      { name := name, toolName := tool.name,
                        inputs := [], outputs := [], attributes := [] } rest
                    cases hac : taskAttrsLoop d
                        (st'.emit (Event.createTask tool.name name))
                        { name := name, toolName := tool.name,
                          inputs := [], outputs := [], attributes := [] } rest with
                    | mk st3 rr =>
                        rw [hac] at ha
                        cases rr with
                        | none =>
                            simp only [parseTaskEntry, hk, if_true, hgc, hac]
                            exact stepOK_trans hg (stepOK_trans (stepOK_emit _) ha)
                        | some task =>
                            simp only [parseTaskEntry, hk, if_true, hgc, hac]
                            refine stepOK_trans hg (stepOK_trans (stepOK_emit _)
                              (stepOK_trans ha ?_))
                            exact ⟨⟨[Event.loadedTask name], rfl, by simp⟩, id, id⟩
        | null => simp only [parseTaskEntry, hk, if_true]; exact stepOK_err _
        | mapping es => simp only [parseTaskEntry, hk, if_true]; exact stepOK_err _
        | sequence its => simp only [parseTaskEntry, hk, if_true]; exact stepOK_err _
        | aliasNode => simp only [parseTaskEntry, hk, if_true]; exact stepOK_err _
      · rw [Bool.not_eq_true] at hk
        simp only [parseTaskEntry, hk, Bool.false_eq_true, if_false]
        exact stepOK_err _

lemma parseTasksMapping_step (d : Delegate) (st : PState)
    (l : List (YNode × YNode)) :
    StepOK d st (parseTasksMapping d st l).1 (parseTasksMapping d st l).2 := by
  induction l generalizing st with
  | nil => exact stepOK_same rfl
  | cons hd tl ih =>
      obtain ⟨k, v⟩ := hd
      cases k with
      | scalar name =>
          cases v with
          | mapping attrs =>
              have he := parseTaskEntry_step d st name attrs
              cases hec : parseTaskEntry d st name attrs with
              | mk st' b =>
                  rw [hec] at he
                  cases b with
                  | true =>
                      simp only [parseTasksMapping, hec]
                      exact stepOK_trans he (ih st')
                  | false =>
                      simp only [parseTasksMapping, hec]
                      exact he
          | null => exact stepOK_err _
          | scalar s => exact stepOK_err _
          | sequence its => exact stepOK_err _
          | aliasNode => exact stepOK_err _
      | null => exact stepOK_err _
      | mapping es => exact stepOK_err _
      | sequence its => exact stepOK_err _
      | aliasNode => exact stepOK_err _

lemma afterTasks_step (d : Delegate) (st : PState) (rest : List (YNode × YNode)) :
    StepOK d st (afterTasks st rest).1 (afterTasks st rest).2 := by
  cases rest with
  | nil => exact stepOK_same rfl
  | cons hd tl => exact stepOK_err _

lemma tasksSection_step (d : Delegate) (st : PState)
    (rest : List (YNode × YNode)) :
    StepOK d st (tasksSection d st rest).1 (tasksSection d st rest).2 := by
  cases rest with
  | nil => simp only [tasksSection]; exact afterTasks_step d st []
  | cons hd rest' =>
      obtain ⟨k, v⟩ := hd
      by_cases hk : nodeIsScalarString k "tasks" = true
      · cases v with
        | mapping m =>
            have hp := parseTasksMapping_step d st m
            cases hpc : parseTasksMapping d st m with
            | mk st' b =>
                rw [hpc] at hp
                cases b with
                | true =>
                    simp only [tasksSection, hk, if_true, hpc]
                    exact stepOK_trans hp (afterTasks_step d st' rest')
                | false =>
                    simp only [tasksSection, hk, if_true, hpc]
                    exact hp
        | null => simp only [tasksSection, hk, if_true]; exact stepOK_err _
        | scalar s => simp only [tasksSection, hk, if_true]; exact stepOK_err _
        | sequence its => simp only [tasksSection, hk, if_true]; exact stepOK_err _
        | aliasNode => simp only [tasksSection, hk, if_true]; exact stepOK_err _
      · rw [Bool.not_eq_true] at hk
        simp only [tasksSection, hk, Bool.false_eq_true, if_false]
        exact afterTasks_step d st _

lemma nodesSection_step (d : Delegate) (st : PState)
    (rest : List (YNode × YNode)) :
    StepOK d st (nodesSection d st rest).1 (nodesSection d st rest).2 := by
  cases rest with
  | nil => simp only [nodesSection]; exact tasksSection_step d st []
  | cons hd rest' =>
      obtain ⟨k, v⟩ := hd
      by_cases hk : nodeIsScalarString k "nodes" = true
      · cases v with
        | mapping m =>
            have hp := parseNodesMapping_step d st m
            cases hpc : parseNodesMapping d st m with
            | mk st' b =>
                rw [hpc] at hp
                cases b with
                | true =>
                    simp only [nodesSection, hk, if_true, hpc]
                    exact stepOK_trans hp (tasksSection_step d st' rest')
                | false =>
                    simp only [nodesSection, hk, if_true, hpc]
                    exact hp
        | null => simp only [nodesSection, hk, if_true]; exact stepOK_err _
        | scalar s => simp only [nodesSection, hk, if_true]; exact stepOK_err _
        | sequence its => simp only [nodesSection, hk, if_true]; exact stepOK_err _
        | aliasNode => simp only [nodesSection, hk, if_true]; exact stepOK_err _
      · rw [Bool.not_eq_true] at hk
        simp only [nodesSection, hk, Bool.false_eq_true, if_false]
        exact tasksSection_step d st _

lemma targetsSection_step (d : Delegate) (st : PState)
    (rest : List (YNode × YNode)) :
    StepOK d st (targetsSection d st rest).1 (targetsSection d st rest).2 := by
  cases rest with
  | nil => simp only [targetsSection]; exact nodesSection_step d st []
  | cons hd rest' =>
      obtain ⟨k, v⟩ := hd
      by_cases hk : nodeIsScalarString k "targets" = true
      · cases v with
        | mapping m =>
            have hp := parseTargetsMapping_step d st m
            cases hpc : parseTargetsMapping st m with
            | mk st' b =>
                rw [hpc] at hp
                cases b with
                | true =>
                    simp only [targetsSection, hk, if_true, hpc]
                    exact stepOK_trans hp (nodesSection_step d st' rest')
                | false =>
                    simp only [targetsSection, hk, if_true, hpc]
                    exact hp
        | null => simp only [targetsSection, hk, if_true]; exact stepOK_err _
        | scalar s => simp only [targetsSection, hk, if_true]; exact stepOK_err _
        | sequence its => simp only [targetsSection, hk, if_true]; exact stepOK_err _
        | aliasNode => simp only [targetsSection, hk, if_true]; exact stepOK_err _
      · rw [Bool.not_eq_true] at hk
        simp only [targetsSection, hk, Bool.false_eq_true, if_false]
        exact nodesSection_step d st _

lemma toolsSection_step (d : Delegate) (st : PState)
    (rest : List (YNode × YNode)) :
    StepOK d st (toolsSection d st rest).1 (toolsSection d st rest).2 := by
  cases rest with
  | nil => simp only [toolsSection]; exact targetsSection_step d st []
  | cons hd rest' =>
      obtain ⟨k, v⟩ := hd
      by_cases hk : nodeIsScalarString k "tools" = true
      · cases v with
        | mapping m =>
            have hp := parseToolsMapping_step d st m
            cases hpc : parseToolsMapping d st m with
            | mk st' b =>
                rw [hpc] at hp
                cases b with
                | true =>
                    simp only [toolsSection, hk, if_true, hpc]
                    exact stepOK_trans hp (targetsSection_step d st' rest')
                | false =>
                    simp only [toolsSection, hk, if_true, hpc]
                    exact hp
        | null => simp only [toolsSection, hk, if_true]; exact stepOK_err _
        | scalar s => simp only [toolsSection, hk, if_true]; exact stepOK_err _
        | sequence its => simp only [toolsSection, hk, if_true]; exact stepOK_err _
        | aliasNode => simp only [toolsSection, hk, if_true]; exact stepOK_err _
      · rw [Bool.not_eq_true] at hk
        simp only [toolsSection, hk, Bool.false_eq_true, if_false]
        exact targetsSection_step d st _

lemma parseRootEntries_step (d : Delegate) (st : PState) (k v : YNode)
    (rest : List (YNode × YNode)) :
    StepOK d st (parseRootEntries d st k v rest).1
      (parseRootEntries d st k v rest).2 := by
  by_cases hk : nodeIsScalarString k "client" = true
  · cases v with
    | mapping ce =>
        have hp := parseClientMapping_step d st ce
        cases hpc : parseClientMapping d st ce with
        | mk st' b =>
            rw [hpc] at hp
            cases b with
            | true =>
                simp only [parseRootEntries, hk, if_true, hpc]
                exact stepOK_trans hp (toolsSection_step d st' rest)
            | false =>
                simp only [parseRootEntries, hk, if_true, hpc]
                exact hp
    | null => simp only [parseRootEntries, hk, if_true]; exact stepOK_err _
    | scalar s => simp only [parseRootEntries, hk, if_true]; exact stepOK_err _
    | sequence its => simp only [parseRootEntries, hk, if_true]; exact stepOK_err _
    | aliasNode => simp only [parseRootEntries, hk, if_true]; exact stepOK_err _
  · rw [Bool.not_eq_true] at hk
    simp only [parseRootEntries, hk, Bool.false_eq_true, if_false]
    exact stepOK_err _

lemma parseRootNode_step (d : Delegate) (st : PState) (root : YNode)
    {st' : PState} {b : Bool}
    (h : parseRootNode d st root = some (st', b)) : StepOK d st st' b := by
  cases root with
  | mapping entries =>
      cases entries with
      | nil => exact Option.noConfusion h
      | cons hd rest =>
          obtain ⟨k, v⟩ := hd
          have hs := parseRootEntries_step d st k v rest
          simp only [parseRootNode, Option.some.injEq] at h
          rw [h] at hs
          exact hs
  | null =>
      simp only [parseRootNode, Option.some.injEq, Prod.mk.injEq] at h
      obtain ⟨h1, h2⟩ := h
      subst h1
      subst h2
      exact stepOK_err _
  | scalar s =>
      simp only [parseRootNode, Option.some.injEq, Prod.mk.injEq] at h
      obtain ⟨h1, h2⟩ := h
      subst h1
      subst h2
      exact stepOK_err _
  | sequence its =>
      simp only [parseRootNode, Option.some.injEq, Prod.mk.injEq] at h
      obtain ⟨h1, h2⟩ := h
      subst h1
      subst h2
      exact stepOK_err _
  | aliasNode =>
      simp only [parseRootNode, Option.some.injEq, Prod.mk.injEq] at h
      obtain ⟨h1, h2⟩ := h
      subst h1
      subst h2
      exact stepOK_err _

lemma nodeIsScalarString_eq {k : YNode} {s : String}
    (h : nodeIsScalarString k s = true) : k = YNode.scalar s := by
  cases k with
  | scalar t =>
      have ht : t = s := by simpa [nodeIsScalarString] using h
      rw [ht]
  | null => simp [nodeIsScalarString] at h
  | mapping es => simp [nodeIsScalarString] at h
  | sequence its => simp [nodeIsScalarString] at h
  | aliasNode => simp [nodeIsScalarString] at h

lemma sectionsOk_skip {a : String} {allowed : List String} {k v : YNode}
    {r : List (YNode × YNode)} (h : nodeIsScalarString k a = false) :
    sectionsOk (a :: allowed) ((k, v) :: r) = sectionsOk allowed ((k, v) :: r) := by
  cases k with
  | scalar s =>
      have hs : ¬(a = s) := by
        intro he
        rw [he] at h
        simp [nodeIsScalarString] at h
      simp only [sectionsOk, consumeKey, if_neg hs]
  | null => rfl
  | mapping es => rfl
  | sequence its => rfl
  | aliasNode => rfl

lemma afterTasks_ne {st : PState} {rest : List (YNode × YNode)}
    (h : rest ≠ []) : (afterTasks st rest).2 = false := by
  cases rest with
  | nil => exact absurd rfl h
  | cons hd tl => rfl

lemma tasksSection_struct (d : Delegate) (st : PState) :
    ∀ {rest : List (YNode × YNode)}, sectionsOk ["tasks"] rest = false →
      (tasksSection d st rest).2 = false := by
  intro rest h
  cases rest with
  | nil => simp [sectionsOk] at h
  | cons hd rest' =>
      obtain ⟨k, v⟩ := hd
      by_cases hk : nodeIsScalarString k "tasks" = true
      · have hks := nodeIsScalarString_eq hk
        subst hks
        cases v with
        | mapping m =>
            have h' : sectionsOk ([] : List String) rest' = false := by
              simpa [sectionsOk, consumeKey] using h
            cases rest' with
            | nil => simp [sectionsOk] at h'
            | cons hd2 tl2 =>
                cases hpc : parseTasksMapping d st m with
                | mk st2 b =>
                    cases b with
                    | true =>
                        simp only [tasksSection, hk, if_true, hpc]
                        exact afterTasks_ne (by simp)
                    | false => simp only [tasksSection, hk, if_true, hpc]
        | null => simp only [tasksSection, hk, if_true]
        | scalar s => simp only [tasksSection, hk, if_true]
        | sequence its => simp only [tasksSection, hk, if_true]
        | aliasNode => simp only [tasksSection, hk, if_true]
      · rw [Bool.not_eq_true] at hk
        simp only [tasksSection, hk, Bool.false_eq_true, if_false]
        exact afterTasks_ne (by simp)

lemma nodesSection_struct (d : Delegate) (st : PState) :
    ∀ {rest : List (YNode × YNode)}, sectionsOk ["nodes", "tasks"] rest = false →
      (nodesSection d st rest).2 = false := by
  intro rest h
  cases rest with
  | nil => simp [sectionsOk] at h
  | cons hd rest' =>
      obtain ⟨k, v⟩ := hd
      by_cases hk : nodeIsScalarString k "nodes" = true
      · have hks := nodeIsScalarString_eq hk
        subst hks
        cases v with
        | mapping m =>
            have h' : sectionsOk ["tasks"] rest' = false := by
              simpa [sectionsOk, consumeKey] using h
            cases hpc : parseNodesMapping d st m with
            | mk st2 b =>
                cases b with
                | true =>
                    simp only [nodesSection, hk, if_true, hpc]
                    exact tasksSection_struct d st2 h'
                | false => simp only [nodesSection, hk, if_true, hpc]
        | null => simp only [nodesSection, hk, if_true]
        | scalar s => simp only [nodesSection, hk, if_true]
        | sequence its => simp only [nodesSection, hk, if_true]
        | aliasNode => simp only [nodesSection, hk, if_true]
      · have hk' : nodeIsScalarString k "nodes" = false := by
          rwa [Bool.not_eq_true] at hk
        rw [sectionsOk_skip hk'] at h
        simp only [nodesSection, hk', Bool.false_eq_true, if_false]
        exact tasksSection_struct d st h

lemma targetsSection_struct (d : Delegate) (st : PState) :
    ∀ {rest : List (YNode × YNode)},
      sectionsOk ["targets", "nodes", "tasks"] rest = false →
      (targetsSection d st rest).2 = false := by
  intro rest h
  cases rest with
  | nil => simp [sectionsOk] at h
  | cons hd rest' =>
      obtain ⟨k, v⟩ := hd
      by_cases hk : nodeIsScalarString k "targets" = true
      · have hks := nodeIsScalarString_eq hk
        subst hks
        cases v with
        | mapping m =>
            have h' : sectionsOk ["nodes", "tasks"] rest' = false := by
              simpa [sectionsOk, consumeKey] using h
            cases hpc : parseTargetsMapping st m with
            | mk st2 b =>
                cases b with
                | true =>
                    simp only [targetsSection, hk, if_true, hpc]
                    exact nodesSection_struct d st2 h'
                | false => simp only [targetsSection, hk, if_true, hpc]
        | null => simp only [targetsSection, hk, if_true]
        | scalar s => simp only [targetsSection, hk, if_true]
        | sequence its => simp only [targetsSection, hk, if_true]
        | aliasNode => simp only [targetsSection, hk, if_true]
      · have hk' : nodeIsScalarString k "targets" = false := by
          rwa [Bool.not_eq_true] at hk
        rw [sectionsOk_skip hk'] at h
        simp only [targetsSection, hk', Bool.false_eq_true, if_false]
        exact nodesSection_struct d st h

lemma toolsSection_struct (d : Delegate) (st : PState) :
    ∀ {rest : List (YNode × YNode)},
      sectionsOk ["tools", "targets", "nodes", "tasks"] rest = false →
      (toolsSection d st rest).2 = false := by
  intro rest h
  cases rest with
  | nil => simp [sectionsOk] at h
  | cons hd rest' =>
      obtain ⟨k, v⟩ := hd
      by_cases hk : nodeIsScalarString k "tools" = true
      · have hks := nodeIsScalarString_eq hk
        subst hks
        cases v with
        | mapping m =>
            have h' : sectionsOk ["targets", "nodes", "tasks"] rest' = false := by
              simpa [sectionsOk, consumeKey] using h
            cases hpc : parseToolsMapping d st m with
            | mk st2 b =>
                cases b with
                | true =>
                    simp only [toolsSection, hk, if_true, hpc]
                    exact targetsSection_struct d st2 h'
                | false => simp only [toolsSection, hk, if_true, hpc]
        | null => simp only [toolsSection, hk, if_true]
        | scalar s => simp only [toolsSection, hk, if_true]
        | sequence its => simp only [toolsSection, hk, if_true]
        | aliasNode => simp only [toolsSection, hk, if_true]
      · have hk' : nodeIsScalarString k "tools" = false := by
          rwa [Bool.not_eq_true] at hk
        rw [sectionsOk_skip hk'] at h
        simp only [toolsSection, hk', Bool.false_eq_true, if_false]
        exact targetsSection_struct d st h

lemma parseRootEntries_struct (d : Delegate) (st : PState) (k v : YNode)
    (rest : List (YNode × YNode))
    (h : structOkB (YNode.mapping ((k, v) :: rest)) = false) :
    (parseRootEntries d st k v rest).2 = false := by
  by_cases hk : nodeIsScalarString k "client" = true
  · have hks := nodeIsScalarString_eq hk
    subst hks
    cases v with
    | mapping ce =>
        have h' : sectionsOk ["tools", "targets", "nodes", "tasks"]
            rest = false := by
          simpa [structOkB, nodeIsScalarString] using h
        cases hpc : parseClientMapping d st ce with
        | mk st' b =>
            cases b with
            | true =>
                simp only [parseRootEntries, hk, if_true, hpc]
                exact toolsSection_struct d st' h'
            | false => simp only [parseRootEntries, hk, if_true, hpc]
    | null => simp only [parseRootEntries, hk, if_true]
    | scalar s => simp only [parseRootEntries, hk, if_true]
    | sequence its => simp only [parseRootEntries, hk, if_true]
    | aliasNode => simp only [parseRootEntries, hk, if_true]
  · rw [Bool.not_eq_true] at hk
    simp only [parseRootEntries, hk, Bool.false_eq_true, if_false]

lemma parseRootNode_struct (d : Delegate) (st : PState) (root : YNode)
    (h : structOkB root = false) {st' : PState} {b : Bool}
    (hp : parseRootNode d st root = some (st', b)) : b = false := by
  cases root with
  | mapping entries =>
      cases entries with
      | nil => exact Option.noConfusion hp
      | cons hd rest =>
          obtain ⟨k, v⟩ := hd
          have hb := parseRootEntries_struct d st k v rest h
          simp only [parseRootNode, Option.some.injEq] at hp
          rw [hp] at hb
          exact hb
  | null =>
      simp only [parseRootNode, Option.some.injEq, Prod.mk.injEq] at hp
      exact hp.2.symm
  | scalar s =>
      simp only [parseRootNode, Option.some.injEq, Prod.mk.injEq] at hp
      exact hp.2.symm
  | sequence its =>
      simp only [parseRootNode, Option.some.injEq, Prod.mk.injEq] at hp
      exact hp.2.symm
  | aliasNode =>
      simp only [parseRootNode, Option.some.injEq, Prod.mk.injEq] at hp
      exact hp.2.symm

/-- C1 counterexample: the claim that every failing parse makes at
least one delegate.error call is false.  With a delegate whose tool
configureAttribute rejects, the document with a tools attribute fails
while the trace contains no error event at all. -/
theorem claim1_counterexample :
    parseRootNode rejectingToolAttrDelegate (initState "build.llbuild")
        toolAttrDoc = some (toolAttrFailState, false) ∧
    toolAttrFailState.trace.all (fun e => !(isErrorEventB e)) = true := by
  exact ⟨rfl, rfl⟩

/-- C1 (amended): a parse that returns false leaves either a
delegate.error call or a rejected configureAttribute call in the
trace; the configureAttribute failure paths of the tools, nodes and
tasks sub-parsers propagate the failure without a parser-side error
report. -/
theorem claim1_failure_evidence (d : Delegate) (file : String) (root : YNode)
    (st' : PState)
    (h : parseRootNode d (initState file) root = some (st', false)) :
    (∃ f m, Event.error f m ∈ st'.trace) ∨
    (∃ k n a v, Event.configAttr k n a v false ∈ st'.trace) := by
  have hs := parseRootNode_step d (initState file) root h
  obtain ⟨evts, he, hf⟩ := hs.ext
  rcases hf rfl with ⟨f, m, hm⟩ | ⟨k, n, a, v, hm, _⟩
  · exact Or.inl ⟨f, m, by rw [he]; exact List.mem_append_right _ hm⟩
  · exact Or.inr ⟨k, n, a, v, by rw [he]; exact List.mem_append_right _ hm⟩

theorem claim1_failure_evidence_witness :
    parseRootNode benignDelegate (initState "f") YNode.null =
      some ((initState "f").err "unexpected top-level node", false) ∧
    ((∃ f m, Event.error f m ∈
        ((initState "f").err "unexpected top-level node").trace) ∨
     (∃ k n a v, Event.configAttr k n a v false ∈
        ((initState "f").err "unexpected top-level node").trace)) :=
  ⟨rfl, claim1_failure_evidence benignDelegate "f" YNode.null
    ((initState "f").err "unexpected top-level node") rfl⟩

/-- C2 (code bug): the empty top-level mapping is a schema deviation
(the mandatory client key is missing), yet the parse has no defined
result at all: the code reads the begin iterator of the root mapping
without checking it against end, so it dereferences the end iterator
and crashes with no delegate error call and no false return, while
the specification requires every deviation to be reported through the
delegate. -/
theorem claim2_crash_on_empty_root :
    structOkB (YNode.mapping []) = false ∧
    parseRootNode benignDelegate (initState "build.llbuild")
      (YNode.mapping []) = none :=
  ⟨rfl, rfl⟩

/-- Supporting fact for C2: every schema deviation whose parse has a
defined result returns false with a delegate error call, for any
delegate whose attribute callbacks accept; the empty root mapping is
the only deviation without a defined result. -/
theorem parse_deviation_reports_error (d : Delegate) (file : String)
    (root : YNode) (st' : PState) (b : Bool) (hb : benign d)
    (h : structOkB root = false)
    (hp : parseRootNode d (initState file) root = some (st', b)) :
    b = false ∧ hasErrorEvent st'.trace := by
  have hbf := parseRootNode_struct d (initState file) root h hp
  subst hbf
  refine ⟨rfl, ?_⟩
  have hs := parseRootNode_step d (initState file) root hp
  obtain ⟨evts, he, hf⟩ := hs.ext
  obtain ⟨f, m, hm⟩ := benign_failWitness hb (hf rfl)
  rw [he]
  exact ⟨f, m, List.mem_append_right _ hm⟩

lemma getOrCreateTool_frame (d : Delegate) (st : PState) (name : String) :
    (getOrCreateTool d st name).1.nodes = st.nodes ∧
    (getOrCreateTool d st name).1.tasks = st.tasks ∧
    ∃ evts, (getOrCreateTool d st name).1.trace = st.trace ++ evts ∧
      (∀ m, Event.loadedTask m ∉ evts) := by
  cases h : lookupKV name st.tools with
  | some t =>
      simp only [getOrCreateTool, h]
      exact ⟨by simp, by simp, ⟨[], by simp, by simp⟩⟩
  | none =>
      simp only [getOrCreateTool, h]
      by_cases hl : d.lookupToolOk name = true
      · rw [if_pos hl]
        exact ⟨by simp, by simp, ⟨[Event.lookupTool name true], by simp, by simp⟩⟩
      · rw [if_neg hl]
        refine ⟨by simp [PState.emit, PState.err], by simp [PState.emit, PState.err],
          ⟨[Event.lookupTool name false,
            Event.error st.mainFilename "invalid tool type in tools map"], ?_, by simp⟩⟩
        simp [PState.emit, PState.err]

lemma getOrCreateNode_frame (d : Delegate) (st : PState) (name : String)
    (b : Bool) :
    (getOrCreateNode d st name b).1.tools = st.tools ∧
    (getOrCreateNode d st name b).1.tasks = st.tasks ∧
    ∃ evts, (getOrCreateNode d st name b).1.trace = st.trace ++ evts ∧
      (∀ m, Event.loadedTask m ∉ evts) := by
  cases h : lookupKV name st.nodes with
  | some n =>
      simp only [getOrCreateNode, h]
      exact ⟨by simp, by simp, ⟨[], by simp, by simp⟩⟩
  | none =>
      simp only [getOrCreateNode, h]
      exact ⟨by simp, by simp, ⟨[Event.lookupNode name b], by simp, by simp⟩⟩

lemma getOrCreateNode_preserves (d : Delegate) (st : PState) (name : String)
    (b : Bool) {a : String} {x : NodeEnt}
    (h : lookupKV a st.nodes = some x) :
    lookupKV a (getOrCreateNode d st name b).1.nodes = some x := by
  cases hn : lookupKV name st.nodes with
  | some n => simp only [getOrCreateNode, hn]; exact h
  | none =>
      simp only [getOrCreateNode, hn]
      have hne : a ≠ name := by
        intro he
        rw [he, hn] at h
        cases h
      rw [lookupKV_insertKV_ne hne]
      exact h

lemma getOrCreateNode_lookup_ne (d : Delegate) (st : PState) (name : String)
    (b : Bool) {a : String} (hne : a ≠ name) :
    lookupKV a (getOrCreateNode d st name b).1.nodes = lookupKV a st.nodes := by
  cases hn : lookupKV name st.nodes with
  | some n => simp only [getOrCreateNode, hn]
  | none =>
      simp only [getOrCreateNode, hn]
      exact lookupKV_insertKV_ne hne _ _

lemma readNodeList_frame (d : Delegate) (w : String) :
    ∀ (l : List YNode) (st : PState) (acc : List NodeEnt),
    (readNodeList d st acc w l).1.tools = st.tools ∧
    (readNodeList d st acc w l).1.tasks = st.tasks ∧
    ∃ evts, (readNodeList d st acc w l).1.trace = st.trace ++ evts ∧
      (∀ m, Event.loadedTask m ∉ evts) := by
  intro l
  induction l with
  | nil => exact fun st acc => ⟨rfl, rfl, ⟨[], by simp [readNodeList], by simp⟩⟩
  | cons hd tl ih =>
      intro st acc
      cases hd with
      | scalar s =>
          have hg := getOrCreateNode_frame d st s true
          cases hgc : getOrCreateNode d st s true with
          | mk st1 nd =>
              rw [hgc] at hg
              simp only [readNodeList, hgc]
              obtain ⟨hg1, hg2, ⟨e1, he1, hn1⟩⟩ := hg
              obtain ⟨hi1, hi2, ⟨e2, he2, hn2⟩⟩ := ih st1 (acc ++ [nd])
              refine ⟨by rw [hi1]; exact hg1, by rw [hi2]; exact hg2,
                ⟨e1 ++ e2, ?_, ?_⟩⟩
              · rw [he2, he1, List.append_assoc]
              · intro m hm
                rcases List.mem_append.mp hm with hm | hm
                · exact hn1 m hm
                · exact hn2 m hm
      | null => exact ⟨rfl, rfl, ⟨[Event.error st.mainFilename _], rfl, by simp⟩⟩
      | mapping es => exact ⟨rfl, rfl, ⟨[Event.error st.mainFilename _], rfl, by simp⟩⟩
      | sequence its => exact ⟨rfl, rfl, ⟨[Event.error st.mainFilename _], rfl, by simp⟩⟩
      | aliasNode => exact ⟨rfl, rfl, ⟨[Event.error st.mainFilename _], rfl, by simp⟩⟩

lemma readNodeList_preserves (d : Delegate) (w : String) :
    ∀ (l : List YNode) (st : PState) (acc : List NodeEnt) {a : String}
      {x : NodeEnt}, lookupKV a st.nodes = some x →
      lookupKV a (readNodeList d st acc w l).1.nodes = some x := by
  intro l
  induction l with
  | nil => intro st acc a x h; exact h
  | cons hd tl ih =>
      intro st acc a x h
      cases hd with
      | scalar s =>
          cases hgc : getOrCreateNode d st s true with
          | mk st1 nd =>
              simp only [readNodeList, hgc]
              have h1 := getOrCreateNode_preserves d st s true h
              rw [hgc] at h1
              exact ih st1 (acc ++ [nd]) h1
      | null => exact h
      | mapping es => exact h
      | sequence its => exact h
      | aliasNode => exact h

lemma nodeAttrsLoop_nodes (d : Delegate) (nn : String) :
    ∀ (l : List (YNode × YNode)) (st : PState),
      (nodeAttrsLoop d st nn l).1.nodes = st.nodes := by
  intro l
  induction l with
  | nil => exact fun st => rfl
  | cons hd tl ih =>
      intro st
      obtain ⟨k, v⟩ := hd
      cases k with
      | scalar key =>
          cases v with
          | scalar value =>
              by_cases hok : d.nodeAttrOk nn key value = true
              · simp only [nodeAttrsLoop, hok, if_true]
                exact ih _
              · rw [Bool.not_eq_true] at hok
                simp only [nodeAttrsLoop, hok, Bool.false_eq_true, if_false]
                rfl
          | null => rfl
          | mapping es => rfl
          | sequence its => rfl
          | aliasNode => rfl
      | null => rfl
      | mapping es => rfl
      | sequence its => rfl
      | aliasNode => rfl

lemma taskAttrsLoop_frame (d : Delegate) :
    ∀ (l : List (YNode × YNode)) (st : PState) (task : TaskEnt),
    (taskAttrsLoop d st task l).1.tools = st.tools ∧
    (taskAttrsLoop d st task l).1.tasks = st.tasks ∧
    ∃ evts, (taskAttrsLoop d st task l).1.trace = st.trace ++ evts ∧
      (∀ m, Event.loadedTask m ∉ evts) := by
  intro l
  induction l with
  | nil => exact fun st task => ⟨rfl, rfl, ⟨[], by simp [taskAttrsLoop], by simp⟩⟩
  | cons hd tl ih =>
      intro st task
      obtain ⟨k, v⟩ := hd
      by_cases hi : nodeIsScalarString k "inputs" = true
      · cases v with
        | sequence items =>
            have hr := readNodeList_frame d "inputs" items st []
            cases hrc : readNodeList d st [] "inputs" items with
            | mk st' r =>
                rw [hrc] at hr
                obtain ⟨hr1, hr2, ⟨e1, he1, hn1⟩⟩ := hr
                cases r with
                | some nds =>
                    simp only [taskAttrsLoop, hi, if_true, hrc]
                    obtain ⟨hi1, hi2, ⟨e2, he2, hn2⟩⟩ :=
                      ih st' { task with inputs := nds }
                    refine ⟨by rw [hi1]; exact hr1, by rw [hi2]; exact hr2,
                      ⟨e1 ++ e2, by rw [he2, he1, List.append_assoc], ?_⟩⟩
                    intro m hm
                    rcases List.mem_append.mp hm with hm | hm
                    · exact hn1 m hm
                    · exact hn2 m hm
                | none =>
                    simp only [taskAttrsLoop, hi, if_true, hrc]
                    exact ⟨hr1, hr2, ⟨e1, he1, hn1⟩⟩
        | null =>
            simp only [taskAttrsLoop, hi, if_true]
            exact ⟨rfl, rfl, ⟨[Event.error st.mainFilename _], rfl, by simp⟩⟩
        | scalar s =>
            simp only [taskAttrsLoop, hi, if_true]
            exact ⟨rfl, rfl, ⟨[Event.error st.mainFilename _], rfl, by simp⟩⟩
        | mapping es =>
            simp only [taskAttrsLoop, hi, if_true]
            exact ⟨rfl, rfl, ⟨[Event.error st.mainFilename _], rfl, by simp⟩⟩
        | aliasNode =>
            simp only [taskAttrsLoop, hi, if_true]
            exact ⟨rfl, rfl, ⟨[Event.error st.mainFilename _], rfl, by simp⟩⟩
      · rw [Bool.not_eq_true] at hi
        by_cases ho : nodeIsScalarString k "outputs" = true
        · cases v with
          | sequence items =>
              have hr := readNodeList_frame d "outputs" items st []
              cases hrc : readNodeList d st [] "outputs" items with
              | mk st' r =>
                  rw [hrc] at hr
                  obtain ⟨hr1, hr2, ⟨e1, he1, hn1⟩⟩ := hr
                  cases r with
                  | some nds =>
                      simp only [taskAttrsLoop, hi, Bool.false_eq_true, if_false,
                        ho, if_true, hrc]
                      obtain ⟨hi1, hi2, ⟨e2, he2, hn2⟩⟩ :=
                        ih st' { task with outputs := nds }
                      refine ⟨by rw [hi1]; exact hr1, by rw [hi2]; exact hr2,
                        ⟨e1 ++ e2, by rw [he2, he1, List.append_assoc], ?_⟩⟩
                      intro m hm
                      rcases List.mem_append.mp hm with hm | hm
                      · exact hn1 m hm
                      · exact hn2 m hm
                  | none =>
                      simp only [taskAttrsLoop, hi, Bool.false_eq_true, if_false,
                        ho, if_true, hrc]
                      exact ⟨hr1, hr2, ⟨e1, he1, hn1⟩⟩
          | null =>
              simp only [taskAttrsLoop, hi, Bool.false_eq_true, if_false, ho, if_true]
              exact ⟨rfl, rfl, ⟨[Event.error st.mainFilename _], rfl, by simp⟩⟩
          | scalar s =>
              simp only [taskAttrsLoop, hi, Bool.false_eq_true, if_false, ho, if_true]
              exact ⟨rfl, rfl, ⟨[Event.error st.mainFilename _], rfl, by simp⟩⟩
          | mapping es =>
              simp only [taskAttrsLoop, hi, Bool.false_eq_true, if_false, ho, if_true]
              exact ⟨rfl, rfl, ⟨[Event.error st.mainFilename _], rfl, by simp⟩⟩
          | aliasNode =>
              simp only [taskAttrsLoop, hi, Bool.false_eq_true, if_false, ho, if_true]
              exact ⟨rfl, rfl, ⟨[Event.error st.mainFilename _], rfl, by simp⟩⟩
        · rw [Bool.not_eq_true] at ho
          cases k with
          | scalar key =>
              cases v with
              | scalar value =>
                  by_cases hok : d.taskAttrOk task.name key value = true
                  · simp only [taskAttrsLoop, hi, ho, Bool.false_eq_true, if_false,
                      hok, if_true]
                    obtain ⟨hi1, hi2, ⟨e2, he2, hn2⟩⟩ := ih _ _
                    refine ⟨hi1, hi2,
                      ⟨Event.configAttr EntityKind.task task.name key value true :: e2,
                        ?_, ?_⟩⟩
                    · rw [he2]
                      simp [PState.emit]
                    · intro m hm
                      rcases List.mem_cons.mp hm with hm | hm
                      · cases hm
                      · exact hn2 m hm
                  · rw [Bool.not_eq_true] at hok
                    simp only [taskAttrsLoop, hi, ho, hok, Bool.false_eq_true, if_false]
                    exact ⟨rfl, rfl,
                      ⟨[Event.configAttr EntityKind.task task.name key value false],
                        rfl, by simp⟩⟩
              | null =>
                  simp only [taskAttrsLoop, hi, ho, Bool.false_eq_true, if_false]
                  exact ⟨rfl, rfl, ⟨[Event.error st.mainFilename _], rfl, by simp⟩⟩
              | mapping es =>
                  simp only [taskAttrsLoop, hi, ho, Bool.false_eq_true, if_false]
                  exact ⟨rfl, rfl, ⟨[Event.error st.mainFilename _], rfl, by simp⟩⟩
              | sequence its =>
                  simp only [taskAttrsLoop, hi, ho, Bool.false_eq_true, if_false]
                  exact ⟨rfl, rfl, ⟨[Event.error st.mainFilename _], rfl, by simp⟩⟩
              | aliasNode =>
                  simp only [taskAttrsLoop, hi, ho, Bool.false_eq_true, if_false]
                  exact ⟨rfl, rfl, ⟨[Event.error st.mainFilename _], rfl, by simp⟩⟩
          | null =>
              simp only [taskAttrsLoop, hi, ho, Bool.false_eq_true, if_false]
              exact ⟨rfl, rfl, ⟨[Event.error st.mainFilename _], rfl, by simp⟩⟩
          | mapping es =>
              simp only [taskAttrsLoop, hi, ho, Bool.false_eq_true, if_false]
              exact ⟨rfl, rfl, ⟨[Event.error st.mainFilename _], rfl, by simp⟩⟩
          | sequence its =>
              simp only [taskAttrsLoop, hi, ho, Bool.false_eq_true, if_false]
              exact ⟨rfl, rfl, ⟨[Event.error st.mainFilename _], rfl, by simp⟩⟩
          | aliasNode =>
              simp only [taskAttrsLoop, hi, ho, Bool.false_eq_true, if_false]
              exact ⟨rfl, rfl, ⟨[Event.error st.mainFilename _], rfl, by simp⟩⟩

lemma nIss_self (s : String) : nodeIsScalarString (YNode.scalar s) s = true := by
  simp [nodeIsScalarString]

lemma readNodeList_creates (d : Delegate) (w : String) :
    ∀ (items : List YNode) (st : PState) (acc : List NodeEnt)
      {st' : PState} {l : List NodeEnt} {nm : String},
      readNodeList d st acc w items = (st', some l) →
      YNode.scalar nm ∈ items → lookupKV nm st.nodes = none →
      ∃ u, lookupKV nm st'.nodes =
        some { name := nm, isImplicit := true, uid := u } := by
  intro items
  induction items with
  | nil => intro st acc st' l nm _ hmem _; cases hmem
  | cons hd tl ih =>
      intro st acc st' l nm heq hmem hnone
      cases hd with
      | scalar s =>
          by_cases hs : s = nm
          · subst hs
            simp only [readNodeList, getOrCreateNode, hnone] at heq
            have hb : lookupKV s
                (insertKV s { name := s, isImplicit := true, uid := st.nextId }
                  st.nodes) =
                some { name := s, isImplicit := true, uid := st.nextId } :=
              lookupKV_insertKV_self _ _ _
            have hp := readNodeList_preserves d w tl
              { st with
                  nodes := insertKV s
                    { name := s, isImplicit := true, uid := st.nextId } st.nodes,
                  nextId := st.nextId + 1,
                  trace := st.trace ++ [Event.lookupNode s true] }
              (acc ++ [{ name := s, isImplicit := true, uid := st.nextId }]) hb
            rw [heq] at hp
            exact ⟨st.nextId, hp⟩
          · cases hgc : getOrCreateNode d st s true with
            | mk st1 nd =>
                simp only [readNodeList, hgc] at heq
                have hnone1 : lookupKV nm st1.nodes = none := by
                  have hl := getOrCreateNode_lookup_ne d st s true
                    (fun he => hs he.symm)
                  rw [hgc] at hl
                  rw [hl]
                  exact hnone
                have hmem' : YNode.scalar nm ∈ tl := by
                  rcases List.mem_cons.mp hmem with hmem | hmem
                  · exact absurd (YNode.scalar.inj hmem.symm) hs
                  · exact hmem
                exact ih st1 (acc ++ [nd]) heq hmem' hnone1
      | null =>
          simp only [readNodeList] at heq
          exact Option.noConfusion (congrArg Prod.snd heq)
      | mapping es =>
          simp only [readNodeList] at heq
          exact Option.noConfusion (congrArg Prod.snd heq)
      | sequence its =>
          simp only [readNodeList] at heq
          exact Option.noConfusion (congrArg Prod.snd heq)
      | aliasNode =>
          simp only [readNodeList] at heq
          exact Option.noConfusion (congrArg Prod.snd heq)

/-- C3: within the tasks section, a task mapping must open with the
pair tool mapped to a scalar tool name: an empty mapping, a different
first key, or a non-scalar tool value each fail with a delegate error,
and otherwise the named tool is resolved-or-created in the registry
and its createTask factory is invoked with the task name. -/
theorem claim3_task_tool_first_key (d : Delegate) (st : PState)
    (name : String) (k v : YNode) (rest : List (YNode × YNode))
    (tname : String) :
    (parseTaskEntry d st name [] =
      (st.err "missing tool key in task map", false)) ∧
    (nodeIsScalarString k "tool" = false →
      parseTaskEntry d st name ((k, v) :: rest) =
        (st.err "expected tool initial key in tasks map", false)) ∧
    ((∀ s, v ≠ YNode.scalar s) →
      parseTaskEntry d st name ((YNode.scalar "tool", v) :: rest) =
        (st.err "invalid tool value type in tasks map", false)) ∧
    ((lookupKV tname st.tools).isSome = true ∨ d.lookupToolOk tname = true →
      (∃ tn, Event.createTask tn name ∈
        (parseTaskEntry d st name
          ((YNode.scalar "tool", YNode.scalar tname) :: rest)).1.trace) ∧
      (∃ t, lookupKV tname
        (parseTaskEntry d st name
          ((YNode.scalar "tool", YNode.scalar tname) :: rest)).1.tools =
          some t)) := by
  refine ⟨rfl, ?_, ?_, ?_⟩
  · intro h
    simp only [parseTaskEntry, h, Bool.false_eq_true, if_false]
  · intro hv
    cases v with
    | scalar s => exact absurd rfl (hv s)
    | null => simp only [parseTaskEntry, nIss_self, if_true]
    | mapping es => simp only [parseTaskEntry, nIss_self, if_true]
    | sequence its => simp only [parseTaskEntry, nIss_self, if_true]
    | aliasNode => simp only [parseTaskEntry, nIss_self, if_true]
  · intro hres
    have hsome : ∃ st1 tool, getOrCreateTool d st tname = (st1, some tool) ∧
        lookupKV tname st1.tools = some tool := by
      cases hl : lookupKV tname st.tools with
      | some t => exact ⟨st, t, by simp only [getOrCreateTool, hl], hl⟩
      | none =>
          rcases hres with hres | hres
          · rw [hl] at hres
            cases hres
          · refine ⟨{ st with
                tools := insertKV tname { name := tname, uid := st.nextId }
                  st.tools,
                nextId := st.nextId + 1,
                trace := st.trace ++ [Event.lookupTool tname true] },
              { name := tname, uid := st.nextId }, ?_, ?_⟩
            · simp only [getOrCreateTool, hl]
              rw [if_pos hres]
            · exact lookupKV_insertKV_self _ _ _
    obtain ⟨st1, tool, hg, hb⟩ := hsome
    simp only [parseTaskEntry, nIss_self, if_true, hg]
    have hmem2 : Event.createTask tool.name name ∈
        (st1.emit (Event.createTask tool.name name)).trace := by
      simp [PState.emit]
    cases hac : taskAttrsLoop d (st1.emit (Event.createTask tool.name name))
        { name := name, toolName := tool.name,
          inputs := [], outputs := [], attributes := [] } rest with
    | mk st3 rr =>
        have hf := taskAttrsLoop_frame d rest
          (st1.emit (Event.createTask tool.name name))
          { name := name, toolName := tool.name,
            inputs := [], outputs := [], attributes := [] }
        rw [hac] at hf
        obtain ⟨hf1, _, ⟨evts, hev, _⟩⟩ := hf
        cases rr with
        | none =>
            simp only [hac]
            constructor
            · exact ⟨tool.name, by rw [hev]; exact List.mem_append_left _ hmem2⟩
            · exact ⟨tool, by rw [hf1]; exact hb⟩
        | some task =>
            simp only [hac]
            have hf1' : st3.tools =
                (st1.emit (Event.createTask tool.name name)).tools := hf1
            constructor
            · refine ⟨tool.name, ?_⟩
              show Event.createTask tool.name name ∈
                (st3.emit (Event.loadedTask name)).trace
              have hmem3 : Event.createTask tool.name name ∈ st3.trace := by
                rw [hev]
                exact List.mem_append_left _ hmem2
              simp [PState.emit]
              exact hmem3
            · refine ⟨tool, ?_⟩
              show lookupKV tname st3.tools = some tool
              rw [hf1']
              exact hb

theorem claim3_task_tool_first_key_witness :
    (parseTaskEntry benignDelegate (initState "f") "t1" [] =
      ((initState "f").err "missing tool key in task map", false)) ∧
    (parseTaskEntry benignDelegate (initState "f") "t1"
        [(YNode.null, YNode.null)] =
      ((initState "f").err "expected tool initial key in tasks map", false)) ∧
    (parseTaskEntry benignDelegate (initState "f") "t1"
        [(YNode.scalar "tool", YNode.null)] =
      ((initState "f").err "invalid tool value type in tasks map", false)) ∧
    ((∃ tn, Event.createTask tn "t1" ∈
        (parseTaskEntry benignDelegate (initState "f") "t1"
          [(YNode.scalar "tool", YNode.scalar "sh")]).1.trace) ∧
     (∃ t, lookupKV "sh"
        (parseTaskEntry benignDelegate (initState "f") "t1"
          [(YNode.scalar "tool", YNode.scalar "sh")]).1.tools = some t)) := by
  have h := claim3_task_tool_first_key benignDelegate (initState "f") "t1"
    YNode.null YNode.null [] "sh"
  exact ⟨h.1, h.2.1 rfl, h.2.2.1 (fun s hs => YNode.noConfusion hs),
    h.2.2.2 (Or.inr rfl)⟩

/-- C4: within one parse, tool and node names resolve to the same
registered instance: a name already present is returned unchanged with
the state untouched, and the registries built by a full parse from the
initial state hold at most one entry per name. -/
theorem claim4_registry_identity (d : Delegate) (st : PState)
    (toolName nodeName : String) (t : ToolEnt) (n : NodeEnt) (b : Bool)
    (file : String) (root : YNode) (st' : PState) (bb : Bool)
    (ht : lookupKV toolName st.tools = some t)
    (hn : lookupKV nodeName st.nodes = some n) :
    getOrCreateTool d st toolName = (st, some t) ∧
    getOrCreateNode d st nodeName b = (st, n) ∧
    (parseRootNode d (initState file) root = some (st', bb) →
      goodKeys st'.tools ∧ goodKeys st'.nodes) := by
  refine ⟨by simp only [getOrCreateTool, ht],
    by simp only [getOrCreateNode, hn], ?_⟩
  intro hp
  have hs := parseRootNode_step d (initState file) root hp
  exact ⟨hs.tgood (by simp [goodKeys, initState]),
    hs.ngood (by simp [goodKeys, initState])⟩

theorem claim4_registry_identity_witness :
    (lookupKV "sh" seededState.tools = some { name := "sh", uid := 0 } ∧
     lookupKV "a" seededState.nodes =
       some { name := "a", isImplicit := true, uid := 1 }) ∧
    (getOrCreateTool benignDelegate seededState "sh" =
        (seededState, some { name := "sh", uid := 0 }) ∧
     getOrCreateNode benignDelegate seededState "a" false =
        (seededState, { name := "a", isImplicit := true, uid := 1 }) ∧
     (goodKeys ((initState "f").err "unexpected top-level node").tools ∧
      goodKeys ((initState "f").err "unexpected top-level node").nodes)) := by
  have h := claim4_registry_identity benignDelegate seededState "sh" "a"
    { name := "sh", uid := 0 } { name := "a", isImplicit := true, uid := 1 }
    false "f" YNode.null ((initState "f").err "unexpected top-level node")
    false rfl rfl
  exact ⟨⟨rfl, rfl⟩, h.1, h.2.1, h.2.2 rfl⟩

/-- C5: a node first mentioned in a task input/output list is created
with isImplicit true, a node first mentioned as a nodes-section entry
is created with isImplicit false, and the flag is fixed at first
creation: any later getOrCreateNode with the same name returns the
stored instance unchanged whatever flag is requested. -/
theorem claim5_implicit_flag (d : Delegate) (st stB stC stD stD' : PState)
    (nm nmB nmC nmD : String) (b bB : Bool) (n : NodeEnt)
    (attrs : List (YNode × YNode)) (acc : List NodeEnt) (w : String)
    (items : List YNode) (l : List NodeEnt) :
    (lookupKV nm st.nodes = none →
      (getOrCreateNode d st nm b).2.isImplicit = b ∧
      lookupKV nm (getOrCreateNode d st nm b).1.nodes =
        some (getOrCreateNode d st nm b).2) ∧
    (lookupKV nmB stB.nodes = some n →
      getOrCreateNode d stB nmB bB = (stB, n)) ∧
    (lookupKV nmC stC.nodes = none →
      lookupKV nmC (parseNodeEntry d stC nmC attrs).1.nodes =
        some { name := nmC, isImplicit := false, uid := stC.nextId }) ∧
    (readNodeList d stD acc w items = (stD', some l) →
      YNode.scalar nmD ∈ items → lookupKV nmD stD.nodes = none →
      ∃ u, lookupKV nmD stD'.nodes =
        some { name := nmD, isImplicit := true, uid := u }) := by
  refine ⟨?_, ?_, ?_, ?_⟩
  · intro h
    simp only [getOrCreateNode, h]
    exact ⟨trivial, lookupKV_insertKV_self _ _ _⟩
  · intro h
    simp only [getOrCreateNode, h]
  · intro h
    simp only [parseNodeEntry, getOrCreateNode, h]
    rw [nodeAttrsLoop_nodes]
    exact lookupKV_insertKV_self _ _ _
  · exact fun h1 h2 h3 => readNodeList_creates d w items stD acc h1 h2 h3

theorem claim5_implicit_flag_witness :
    (((getOrCreateNode benignDelegate (initState "f") "x" true).2.isImplicit =
        true ∧
      lookupKV "x" (getOrCreateNode benignDelegate (initState "f") "x"
          true).1.nodes =
        some (getOrCreateNode benignDelegate (initState "f") "x" true).2) ∧
     (getOrCreateNode benignDelegate seededState "a" false =
       (seededState, { name := "a", isImplicit := true, uid := 1 })) ∧
     (lookupKV "y" (parseNodeEntry benignDelegate (initState "f") "y"
          []).1.nodes =
        some { name := "y", isImplicit := false, uid := 0 }) ∧
     (∃ u, lookupKV "z" oneNodeState.nodes =
        some { name := "z", isImplicit := true, uid := u })) := by
  have h := claim5_implicit_flag benignDelegate (initState "f") seededState
    (initState "f") (initState "f") oneNodeState "x" "a" "y" "z" true false
    { name := "a", isImplicit := true, uid := 1 } [] [] "inputs"
    [YNode.scalar "z"] [{ name := "z", isImplicit := true, uid := 0 }]
  exact ⟨h.1 rfl, h.2.1 rfl, h.2.2.1 rfl,
    h.2.2.2 rfl (List.mem_singleton_self _) rfl⟩

lemma nIss_ne {a s : String} (h : a ≠ s) :
    nodeIsScalarString (YNode.scalar a) s = false := by
  simp [nodeIsScalarString, h]

lemma targetNamesLoop_scalars (st : PState) :
    ∀ (l : List String) (acc : List String),
    targetNamesLoop st acc (l.map YNode.scalar) = (st, some (acc ++ l)) := by
  intro l
  induction l with
  | nil => intro acc; simp [targetNamesLoop]
  | cons hd tl ih =>
      intro acc
      simp only [List.map_cons, targetNamesLoop, ih]
      simp

/-- C6: two targets entries with the same name, and two tasks entries
with the same name, each leave exactly one stored entity under that
name, built freshly from the later entry, and the parse succeeds
without any uniqueness error. -/
theorem claim6_duplicate_overwrite (d : Delegate) (st st2 : PState)
    (n nt tl a av : String) (l1 l2 : List String)
    (hT : st.targets = [])
    (hK : st2.tasks = []) (hK2 : st2.tools = [])
    (hTool : d.lookupToolOk tl = true)
    (hok : d.taskAttrOk nt a av = true)
    (ha1 : a ≠ "inputs") (ha2 : a ≠ "outputs") :
    ((parseTargetsMapping st
        [(YNode.scalar n, YNode.sequence (l1.map YNode.scalar)),
         (YNode.scalar n, YNode.sequence (l2.map YNode.scalar))]).2 = true ∧
     (parseTargetsMapping st
        [(YNode.scalar n, YNode.sequence (l1.map YNode.scalar)),
         (YNode.scalar n, YNode.sequence (l2.map YNode.scalar))]).1.targets =
       [(n, { name := n, nodeNames := l2 })]) ∧
    ((parseTasksMapping d st2
        [(YNode.scalar nt, YNode.mapping
            [(YNode.scalar "tool", YNode.scalar tl)]),
         (YNode.scalar nt, YNode.mapping
            [(YNode.scalar "tool", YNode.scalar tl),
             (YNode.scalar a, YNode.scalar av)])]).2 = true ∧
     (parseTasksMapping d st2
        [(YNode.scalar nt, YNode.mapping
            [(YNode.scalar "tool", YNode.scalar tl)]),
         (YNode.scalar nt, YNode.mapping
            [(YNode.scalar "tool", YNode.scalar tl),
             (YNode.scalar a, YNode.scalar av)])]).1.tasks =
       [(nt, { name := nt, toolName := tl, inputs := [], outputs := [],
               attributes := [(a, av)] })]) := by
  constructor
  · constructor
    · simp [parseTargetsMapping, parseTargetEntry, targetNamesLoop_scalars,
        PState.emit, insertKV, hT]
    · simp [parseTargetsMapping, parseTargetEntry, targetNamesLoop_scalars,
        PState.emit, insertKV, hT]
  · constructor
    · simp [parseTasksMapping, parseTaskEntry, taskAttrsLoop, getOrCreateTool,
        nodeIsScalarString, lookupKV, insertKV, PState.emit, hK, hK2, hTool,
        hok, ha1, ha2, nIss_self, nIss_ne]
    · simp [parseTasksMapping, parseTaskEntry, taskAttrsLoop, getOrCreateTool,
        nodeIsScalarString, lookupKV, insertKV, PState.emit, hK, hK2, hTool,
        hok, ha1, ha2, nIss_self, nIss_ne]

theorem claim6_duplicate_overwrite_witness :
    ((parseTargetsMapping (initState "f")
        [(YNode.scalar "tg", YNode.sequence [YNode.scalar "p"]),
         (YNode.scalar "tg", YNode.sequence [YNode.scalar "q"])]).2 = true ∧
     (parseTargetsMapping (initState "f")
        [(YNode.scalar "tg", YNode.sequence [YNode.scalar "p"]),
         (YNode.scalar "tg", YNode.sequence [YNode.scalar "q"])]).1.targets =
       [("tg", { name := "tg", nodeNames := ["q"] })]) ∧
    ((parseTasksMapping benignDelegate (initState "f")
        [(YNode.scalar "tk", YNode.mapping
            [(YNode.scalar "tool", YNode.scalar "sh")]),
         (YNode.scalar "tk", YNode.mapping
            [(YNode.scalar "tool", YNode.scalar "sh"),
             (YNode.scalar "args", YNode.scalar "-c")])]).2 = true ∧
     (parseTasksMapping benignDelegate (initState "f")
        [(YNode.scalar "tk", YNode.mapping
            [(YNode.scalar "tool", YNode.scalar "sh")]),
         (YNode.scalar "tk", YNode.mapping
            [(YNode.scalar "tool", YNode.scalar "sh"),
             (YNode.scalar "args", YNode.scalar "-c")])]).1.tasks =
       [("tk", { name := "tk", toolName := "sh", inputs := [], outputs := [],
                 attributes := [("args", "-c")] })]) := by
  have hw : (["p"].map YNode.scalar) = [YNode.scalar "p"] := rfl
  have hw2 : (["q"].map YNode.scalar) = [YNode.scalar "q"] := rfl
  have h := claim6_duplicate_overwrite benignDelegate (initState "f")
    (initState "f") "tg" "tk" "sh" "args" "-c" ["p"] ["q"] rfl rfl rfl rfl rfl
    (by decide) (by decide)
  rw [hw, hw2] at h
  exact h

lemma clientLoop_scalarPairs (st : PState) :
    ∀ (ps : List (String × String)) (n : String) (v : Nat)
      (pr : List (String × String)),
    clientLoop st n v pr (scalarPairs ps) =
      (match clientEval n v pr ps with
       | some r => (st, some r)
       | none => (st.err "invalid version number in client map", none)) := by
  intro ps
  induction ps with
  | nil => intro n v pr; simp [scalarPairs, clientLoop, clientEval]
  | cons hd tl ih =>
      intro n v pr
      obtain ⟨key, value⟩ := hd
      by_cases h1 : key = "name"
      · subst h1
        simp only [scalarPairs, List.map_cons, clientLoop, clientEval, if_pos rfl]
        exact ih _ _ _
      · by_cases h2 : key = "version"
        · subst h2
          have hn : ¬("version" = "name") := by decide
          simp only [scalarPairs, List.map_cons, clientLoop, clientEval,
            if_neg hn, if_pos rfl]
          cases hp : parseUInt32 value with
          | some ver => exact ih _ _ _
          | none => rfl
        · simp only [scalarPairs, List.map_cons, clientLoop, clientEval,
            if_neg h1, if_neg h2]
          exact ih _ _ _

lemma clientEval_props :
    ∀ (ps : List (String × String)) (n : String) (v : Nat)
      (pr : List (String × String)) {n' : String} {v' : Nat}
      {pr' : List (String × String)},
    clientEval n v pr ps = some (n', v', pr') →
    pr' = pr ++ ps.filter
      (fun p => !(p.1 == "name") && !(p.1 == "version")) := by
  intro ps
  induction ps with
  | nil =>
      intro n v pr n' v' pr' h
      simp only [clientEval, Option.some.injEq, Prod.mk.injEq] at h
      obtain ⟨h1, h2, h3⟩ := h
      rw [← h3]
      simp
  | cons hd tl ih =>
      intro n v pr n' v' pr' h
      obtain ⟨key, value⟩ := hd
      by_cases h1 : key = "name"
      · subst h1
        simp only [clientEval, if_pos rfl] at h
        simpa using ih _ _ _ h
      · by_cases h2 : key = "version"
        · subst h2
          have hn : ¬("version" = "name") := by decide
          simp only [clientEval, if_neg hn, if_pos rfl] at h
          cases hp : parseUInt32 value with
          | some ver =>
              rw [hp] at h
              simpa using ih _ _ _ h
          | none => rw [hp] at h; cases h
        · simp only [clientEval, if_neg h1, if_neg h2] at h
          have hf := ih _ _ _ h
          simp only [List.filter_cons]
          have hc : (!(key == "name") && !(key == "version")) = true := by
            simp [h1, h2]
          rw [hc]
          simp only [if_true]
          rw [hf, List.append_assoc]
          simp

lemma clientEval_append :
    ∀ (xs ys : List (String × String)) (n : String) (v : Nat)
      (pr : List (String × String)),
    clientEval n v pr (xs ++ ys) =
      (match clientEval n v pr xs with
       | none => none
       | some (n', v', pr') => clientEval n' v' pr' ys) := by
  intro xs
  induction xs with
  | nil => intro ys n v pr; simp [clientEval]
  | cons hd tl ih =>
      intro ys n v pr
      obtain ⟨key, value⟩ := hd
      by_cases h1 : key = "name"
      · subst h1
        simp only [List.cons_append, clientEval, if_pos rfl]
        exact ih _ _ _ _
      · by_cases h2 : key = "version"
        · subst h2
          have hn : ¬("version" = "name") := by decide
          simp only [List.cons_append, clientEval, if_neg hn, if_pos rfl]
          cases hp : parseUInt32 value with
          | some ver => exact ih _ _ _ _
          | none => rfl
        · simp only [List.cons_append, clientEval, if_neg h1, if_neg h2]
          exact ih _ _ _ _

lemma clientEval_name_const :
    ∀ (ps : List (String × String)) (n : String) (v : Nat)
      (pr : List (String × String)) {n' : String} {v' : Nat}
      {pr' : List (String × String)},
    (∀ p ∈ ps, p.1 ≠ "name") →
    clientEval n v pr ps = some (n', v', pr') → n' = n := by
  intro ps
  induction ps with
  | nil =>
      intro n v pr n' v' pr' _ h
      simp only [clientEval, Option.some.injEq, Prod.mk.injEq] at h
      exact h.1.symm
  | cons hd tl ih =>
      intro n v pr n' v' pr' hno h
      obtain ⟨key, value⟩ := hd
      have h1 : key ≠ "name" := hno (key, value) (List.mem_cons_self _ _)
      have hno' : ∀ p ∈ tl, p.1 ≠ "name" :=
        fun p hp => hno p (List.mem_cons_of_mem _ hp)
      by_cases h2 : key = "version"
      · subst h2
        have hn : ¬("version" = "name") := by decide
        simp only [clientEval, if_neg hn, if_pos rfl] at h
        cases hp : parseUInt32 value with
        | some ver => rw [hp] at h; exact ih _ _ _ hno' h
        | none => rw [hp] at h; cases h
      · simp only [clientEval, if_neg h1, if_neg h2] at h
        exact ih _ _ _ hno' h

lemma clientEval_version_const :
    ∀ (ps : List (String × String)) (n : String) (v : Nat)
      (pr : List (String × String)) {n' : String} {v' : Nat}
      {pr' : List (String × String)},
    (∀ p ∈ ps, p.1 ≠ "version") →
    clientEval n v pr ps = some (n', v', pr') → v' = v := by
  intro ps
  induction ps with
  | nil =>
      intro n v pr n' v' pr' _ h
      simp only [clientEval, Option.some.injEq, Prod.mk.injEq] at h
      exact h.2.1.symm
  | cons hd tl ih =>
      intro n v pr n' v' pr' hno h
      obtain ⟨key, value⟩ := hd
      have h2 : key ≠ "version" := hno (key, value) (List.mem_cons_self _ _)
      have hno' : ∀ p ∈ tl, p.1 ≠ "version" :=
        fun p hp => hno p (List.mem_cons_of_mem _ hp)
      by_cases h1 : key = "name"
      · subst h1
        simp only [clientEval, if_pos rfl] at h
        exact ih _ _ _ hno' h
      · simp only [clientEval, if_neg h1, if_neg h2] at h
        exact ih _ _ _ hno' h

/-- C7: in the client mapping, a version value that does not parse as
an unsigned base-10 integer fitting 32 bits is a fatal error reported
through the delegate; otherwise the non-reserved scalar pairs are
collected in document order and passed verbatim to configureClient,
whose false return is also a fatal error reported through the
delegate. -/
theorem claim7_client_section (d : Delegate) (st : PState)
    (ps1 ps2 : List (String × String)) (n : String) (v : Nat)
    (props : List (String × String)) :
    (clientEval "" 0 [] ps1 = none →
      parseClientMapping d st (scalarPairs ps1) =
        (st.err "invalid version number in client map", false) ∧
      hasErrorEvent (parseClientMapping d st (scalarPairs ps1)).1.trace) ∧
    (clientEval "" 0 [] ps2 = some (n, v, props) →
      props = ps2.filter (fun p => !(p.1 == "name") && !(p.1 == "version")) ∧
      Event.configureClient n v props (d.clientOk n v props) ∈
        (parseClientMapping d st (scalarPairs ps2)).1.trace ∧
      (d.clientOk n v props = false →
        (parseClientMapping d st (scalarPairs ps2)).2 = false ∧
        Event.error st.mainFilename "unable to configure client" ∈
          (parseClientMapping d st (scalarPairs ps2)).1.trace)) := by
  constructor
  · intro h
    have hc := clientLoop_scalarPairs st ps1 "" 0 []
    simp only [h] at hc
    constructor
    · simp only [parseClientMapping, hc]
    · simp only [parseClientMapping, hc]
      exact ⟨st.mainFilename, "invalid version number in client map",
        List.mem_append_right _ (List.mem_singleton_self _)⟩
  · intro h
    have hc := clientLoop_scalarPairs st ps2 "" 0 []
    simp only [h] at hc
    have hprops := clientEval_props ps2 "" 0 [] h
    simp only [List.nil_append] at hprops
    refine ⟨hprops, ?_, ?_⟩
    · by_cases hok : d.clientOk n v props = true
      · simp only [parseClientMapping, hc, hok, if_true]
        simp [PState.emit]
      · rw [Bool.not_eq_true] at hok
        simp only [parseClientMapping, hc, hok, Bool.false_eq_true, if_false]
        simp [PState.emit, PState.err]
    · intro hrej
      simp only [parseClientMapping, hc, hrej, Bool.false_eq_true, if_false]
      constructor
      · trivial
      · simp [PState.emit, PState.err]

theorem claim7_client_section_witness :
    ((parseClientMapping rejectingClientDelegate (initState "f")
        (scalarPairs [("version", "notanumber")]) =
      ((initState "f").err "invalid version number in client map", false) ∧
      hasErrorEvent (parseClientMapping rejectingClientDelegate (initState "f")
        (scalarPairs [("version", "notanumber")])).1.trace) ∧
     ([("k", "w")] = ([("k", "w"), ("version", "7")] :
          List (String × String)).filter
        (fun p => !(p.1 == "name") && !(p.1 == "version")) ∧
      Event.configureClient "" 7 [("k", "w")]
        (rejectingClientDelegate.clientOk "" 7 [("k", "w")]) ∈
        (parseClientMapping rejectingClientDelegate (initState "f")
          (scalarPairs [("k", "w"), ("version", "7")])).1.trace ∧
      ((parseClientMapping rejectingClientDelegate (initState "f")
          (scalarPairs [("k", "w"), ("version", "7")])).2 = false ∧
       Event.error (initState "f").mainFilename "unable to configure client" ∈
        (parseClientMapping rejectingClientDelegate (initState "f")
          (scalarPairs [("k", "w"), ("version", "7")])).1.trace))) := by
  have h := claim7_client_section rejectingClientDelegate (initState "f")
    [("version", "notanumber")] [("k", "w"), ("version", "7")] "" 7 [("k", "w")]
  have ha := h.1 rfl
  have hb := h.2 rfl
  exact ⟨ha, hb.1, hb.2.1, hb.2.2 rfl⟩

/-- C10: an omitted name key yields the empty string and an omitted
version key yields zero in the configureClient call, a repeated
reserved key resolves to its last occurrence, and reserved keys never
appear in the forwarded property list. -/
theorem claim10_client_defaults (d : Delegate) (st : PState)
    (ps : List (String × String)) (n : String) (v : Nat)
    (props : List (String × String))
    (h : clientEval "" 0 [] ps = some (n, v, props)) :
    Event.configureClient n v props (d.clientOk n v props) ∈
      (parseClientMapping d st (scalarPairs ps)).1.trace ∧
    ((∀ p ∈ ps, p.1 ≠ "name") → n = "") ∧
    ((∀ p ∈ ps, p.1 ≠ "version") → v = 0) ∧
    (∀ pre x post, ps = pre ++ ("name", x) :: post →
      (∀ p ∈ post, p.1 ≠ "name") → n = x) ∧
    (∀ pre x post u, ps = pre ++ ("version", x) :: post →
      (∀ p ∈ post, p.1 ≠ "version") → parseUInt32 x = some u → v = u) ∧
    (∀ p ∈ props, p.1 ≠ "name" ∧ p.1 ≠ "version") := by
  have hc := clientLoop_scalarPairs st ps "" 0 []
  simp only [h] at hc
  refine ⟨?_, ?_, ?_, ?_, ?_, ?_⟩
  · by_cases hok : d.clientOk n v props = true
    · simp only [parseClientMapping, hc, hok, if_true]
      simp [PState.emit]
    · rw [Bool.not_eq_true] at hok
      simp only [parseClientMapping, hc, hok, Bool.false_eq_true, if_false]
      simp [PState.emit, PState.err]
  · exact fun hno => clientEval_name_const ps "" 0 [] hno h
  · exact fun hno => clientEval_version_const ps "" 0 [] hno h
  · intro pre x post hps hpost
    subst hps
    have ha := clientEval_append pre (("name", x) :: post) "" 0 []
    rw [h] at ha
    cases hpre : clientEval "" 0 [] pre with
    | none => rw [hpre] at ha; cases ha
    | some trip =>
        obtain ⟨n1, v1, p1⟩ := trip
        rw [hpre] at ha
        have hstep : clientEval n1 v1 p1 (("name", x) :: post) =
            some (n, v, props) := ha.symm
        simp only [clientEval, if_pos rfl] at hstep
        exact clientEval_name_const post x v1 p1 hpost hstep
  · intro pre x post u hps hpost hu
    subst hps
    have ha := clientEval_append pre (("version", x) :: post) "" 0 []
    rw [h] at ha
    cases hpre : clientEval "" 0 [] pre with
    | none => rw [hpre] at ha; cases ha
    | some trip =>
        obtain ⟨n1, v1, p1⟩ := trip
        rw [hpre] at ha
        have hstep : clientEval n1 v1 p1 (("version", x) :: post) =
            some (n, v, props) := ha.symm
        have hn : ¬("version" = "name") := by decide
        simp only [clientEval, if_neg hn, if_pos rfl, hu] at hstep
        exact clientEval_version_const post n1 u p1 hpost hstep
  · intro p hp
    have hprops := clientEval_props ps "" 0 [] h
    simp only [List.nil_append] at hprops
    rw [hprops] at hp
    have := List.of_mem_filter hp
    constructor
    · intro he
      rw [he] at this
      simp at this
    · intro he
      rw [he] at this
      simp at this

theorem claim10_client_defaults_witness :
    clientEval "" 0 []
      [("version", "1"), ("name", "bob"), ("name", "alice"),
       ("version", "7"), ("k", "w")] =
      some ("alice", 7, [("k", "w")]) ∧
    (Event.configureClient "alice" 7 [("k", "w")]
        (benignDelegate.clientOk "alice" 7 [("k", "w")]) ∈
      (parseClientMapping benignDelegate (initState "f")
        (scalarPairs [("version", "1"), ("name", "bob"), ("name", "alice"),
          ("version", "7"), ("k", "w")])).1.trace ∧
     ((∀ p ∈ ([("version", "1"), ("name", "bob"), ("name", "alice"),
          ("version", "7"), ("k", "w")] : List (String × String)),
        p.1 ≠ "name") → "alice" = "") ∧
     ((∀ p ∈ ([("version", "1"), ("name", "bob"), ("name", "alice"),
          ("version", "7"), ("k", "w")] : List (String × String)),
        p.1 ≠ "version") → 7 = 0) ∧
     (∀ pre x post,
        ([("version", "1"), ("name", "bob"), ("name", "alice"),
          ("version", "7"), ("k", "w")] : List (String × String)) =
          pre ++ ("name", x) :: post →
        (∀ p ∈ post, p.1 ≠ "name") → "alice" = x) ∧
     (∀ pre x post u,
        ([("version", "1"), ("name", "bob"), ("name", "alice"),
          ("version", "7"), ("k", "w")] : List (String × String)) =
          pre ++ ("version", x) :: post →
        (∀ p ∈ post, p.1 ≠ "version") → parseUInt32 x = some u → 7 = u) ∧
     (∀ p ∈ ([("k", "w")] : List (String × String)),
        p.1 ≠ "name" ∧ p.1 ≠ "version")) :=
  ⟨rfl, claim10_client_defaults benignDelegate (initState "f")
    [("version", "1"), ("name", "bob"), ("name", "alice"),
     ("version", "7"), ("k", "w")] "alice" 7 [("k", "w")] rfl⟩

lemma targetNamesLoop_ok :
    ∀ (l : List YNode) (st stx : PState) (acc : List String)
      {r : List String},
    targetNamesLoop st acc l = (stx, some r) → stx = st := by
  intro l
  induction l with
  | nil =>
      intro st stx acc r h
      simp only [targetNamesLoop] at h
      exact (congrArg Prod.fst h).symm
  | cons hd tl ih =>
      intro st stx acc r h
      cases hd with
      | scalar s =>
          simp only [targetNamesLoop] at h
          exact ih st stx (acc ++ [s]) h
      | null =>
          simp only [targetNamesLoop] at h
          exact Option.noConfusion (congrArg Prod.snd h)
      | mapping es =>
          simp only [targetNamesLoop] at h
          exact Option.noConfusion (congrArg Prod.snd h)
      | sequence its =>
          simp only [targetNamesLoop] at h
          exact Option.noConfusion (congrArg Prod.snd h)
      | aliasNode =>
          simp only [targetNamesLoop] at h
          exact Option.noConfusion (congrArg Prod.snd h)

/-- C8: a successfully parsed target entry calls loadedTarget exactly
once, after its pairs are processed and directly before the target is
stored; a successfully parsed task entry likewise calls loadedTask
exactly once, as the last delegate interaction of the entry, before
the task is stored. -/
theorem claim8_loaded_hooks (d : Delegate) :
    (∀ (st st' : PState) (name : String) (items : List YNode),
      parseTargetEntry st name items = (st', true) →
      ∃ names, st'.trace = st.trace ++ [Event.loadedTarget name] ∧
        st'.targets =
          insertKV name { name := name, nodeNames := names } st.targets) ∧
    (∀ (st st' : PState) (name : String) (attrs : List (YNode × YNode)),
      parseTaskEntry d st name attrs = (st', true) →
      ∃ evts task, st'.trace = st.trace ++ evts ++ [Event.loadedTask name] ∧
        (∀ m, Event.loadedTask m ∉ evts) ∧
        st'.tasks = insertKV name task st.tasks) := by
  constructor
  · intro st st' name items heq
    cases hl : targetNamesLoop st [] items with
    | mk stx r =>
        cases r with
        | none =>
            simp only [parseTargetEntry, hl] at heq
            exact Bool.noConfusion (congrArg Prod.snd heq)
        | some names =>
            have hst := targetNamesLoop_ok items st stx [] hl
            subst hst
            simp only [parseTargetEntry, hl, Prod.mk.injEq] at heq
            obtain ⟨h1, -⟩ := heq
            subst h1
            exact ⟨names, rfl, rfl⟩
  · intro st st' name attrs heq
    cases attrs with
    | nil =>
        simp only [parseTaskEntry] at heq
        exact Bool.noConfusion (congrArg Prod.snd heq)
    | cons hd rest =>
        obtain ⟨k, v⟩ := hd
        by_cases hk : nodeIsScalarString k "tool" = true
        · cases v with
          | scalar tname =>
              cases hgc : getOrCreateTool d st tname with
              | mk st1 r =>
                  cases r with
                  | none =>
                      simp only [parseTaskEntry, hk, if_true, hgc] at heq
                      exact Bool.noConfusion (congrArg Prod.snd heq)
                  | some tool =>
                      cases hac : taskAttrsLoop d
                          (st1.emit (Event.createTask tool.name name))
                          { name := name, toolName := tool.name,
                            inputs := [], outputs := [], attributes := [] }
                          rest with
                      | mk st3 rr =>
                          cases rr with
                          | none =>
                              simp only [parseTaskEntry, hk, if_true, hgc,
                                hac] at heq
                              exact Bool.noConfusion (congrArg Prod.snd heq)
                          | some task =>
                              simp only [parseTaskEntry, hk, if_true, hgc,
                                hac, Prod.mk.injEq] at heq
                              obtain ⟨h1, -⟩ := heq
                              subst h1
                              have hgf := getOrCreateTool_frame d st tname
                              rw [hgc] at hgf
                              obtain ⟨-, hgt, ⟨e1, he1, hn1⟩⟩ := hgf
                              have htf := taskAttrsLoop_frame d rest
                                (st1.emit (Event.createTask tool.name name))
                                { name := name, toolName := tool.name,
                                  inputs := [], outputs := [], attributes := [] }
                              rw [hac] at htf
                              obtain ⟨-, htt, ⟨e2, he2, hn2⟩⟩ := htf
                              refine ⟨e1 ++ [Event.createTask tool.name name]
                                ++ e2, task, ?_, ?_, ?_⟩
                              · show st3.trace ++ [Event.loadedTask name] = _
                                rw [he2]
                                show (st1.trace ++ [Event.createTask tool.name name])
                                    ++ e2 ++ [Event.loadedTask name] = _
                                rw [he1]
                                simp [List.append_assoc]
                              · intro m hm
                                rcases List.mem_append.mp hm with hm | hm
                                · rcases List.mem_append.mp hm with hm | hm
                                  · exact hn1 m hm
                                  · simp at hm
                                · exact hn2 m hm
                              · show insertKV name task st3.tasks = _
                                have htt' : st3.tasks = st1.tasks := htt
                                rw [htt']
                                have hgt' : st1.tasks = st.tasks := hgt
                                rw [hgt']
          | null =>
              simp only [parseTaskEntry, hk, if_true] at heq
              exact Bool.noConfusion (congrArg Prod.snd heq)
          | mapping es =>
              simp only [parseTaskEntry, hk, if_true] at heq
              exact Bool.noConfusion (congrArg Prod.snd heq)
          | sequence its =>
              simp only [parseTaskEntry, hk, if_true] at heq
              exact Bool.noConfusion (congrArg Prod.snd heq)
          | aliasNode =>
              simp only [parseTaskEntry, hk, if_true] at heq
              exact Bool.noConfusion (congrArg Prod.snd heq)
        · rw [Bool.not_eq_true] at hk
          simp only [parseTaskEntry, hk, Bool.false_eq_true, if_false] at heq
          exact Bool.noConfusion (congrArg Prod.snd heq)

theorem claim8_loaded_hooks_witness :
    (∃ names, targetDoneState.trace =
        (initState "f").trace ++ [Event.loadedTarget "tg"] ∧
      targetDoneState.targets =
        insertKV "tg" { name := "tg", nodeNames := names }
          (initState "f").targets) ∧
    (∃ evts task, taskDoneState.trace =
        (initState "f").trace ++ evts ++ [Event.loadedTask "tk"] ∧
      (∀ m, Event.loadedTask m ∉ evts) ∧
      taskDoneState.tasks = insertKV "tk" task (initState "f").tasks) :=
  ⟨(claim8_loaded_hooks benignDelegate).1 (initState "f") targetDoneState "tg"
      [YNode.scalar "p"] rfl,
   (claim8_loaded_hooks benignDelegate).2 (initState "f") taskDoneState "tk"
      [(YNode.scalar "tool", YNode.scalar "sh")] rfl⟩

/-- C9: parsing the round-trip example document succeeds; the task set
holds exactly the task build, bound to tool shell, with the single
implicit input node a.c, the single implicit output node a.o, and the
attribute args set to -c; the node set holds exactly the names a.c and
a.o. -/
theorem claim9_round_trip :
    (parseRootNode exDelegate (initState "f") exDoc).map Prod.snd =
      some true ∧
    (parseRootNode exDelegate (initState "f") exDoc).map
        (fun r => r.1.tasks) =
      some [("build",
        { name := "build", toolName := "shell",
          inputs := [{ name := "a.c", isImplicit := true, uid := 1 }],
          outputs := [{ name := "a.o", isImplicit := true, uid := 2 }],
          attributes := [("args", "-c")] })] ∧
    (parseRootNode exDelegate (initState "f") exDoc).map
        (fun r => r.1.nodes.map Prod.fst) =
      some ["a.c", "a.o"] :=
  ⟨rfl, rfl, rfl⟩

end BuildFileModel
